import Mathlib

namespace EsOrm

/-
  Verification of the es_orm field layer (src/es_orm/fields.py).
  We shallowly embed the Python value universe, the Field class hierarchy
  (scalar fields, Dict, List with scalar element templates, ConvertedDict)
  and the operations set / update / set_attrs / update_attrs / clean /
  serialize / deserialize, and prove properties of the embedding.
-/

/-- Python values that flow through the field layer: None, int, str, bool,
list, dict (insertion-ordered association list with string keys). -/
inductive Value where
  | vnull : Value
  | vint (n : Int) : Value
  | vstr (s : String) : Value
  | vbool (b : Bool) : Value
  | vlist (xs : List Value) : Value
  | vdict (kvs : List (String × Value)) : Value

/-- Errors raised by the embedded operations, mirroring the exception
classes used in fields.py / exceptions.py. -/
inductive PyErr where
  | validation (msg : String) : PyErr
  | initRequired : PyErr
  | typeError (msg : String) : PyErr
  | attrError (msg : String) : PyErr
  | valueError (msg : String) : PyErr
deriving DecidableEq

/-- Python value types used by scalar fields (`_value_type`):
object (base Field), int (Integer/Long/Short), str (Text/Keyword/Wildcard),
bool (Boolean). -/
inductive VType where
  | obj : VType
  | tInt : VType
  | tStr : VType
  | tBool : VType
deriving DecidableEq

/-- Validation levels (`Field.ValidationLevel`). -/
inductive VLevel where
  | strict : VLevel
  | warning : VLevel
  | disabled : VLevel
deriving DecidableEq

/-- Key lookup in a Python dict modelled as an association list. -/
def lookupKV {α : Type} : List (String × α) → String → Option α
  | [], _ => none
  | (k, v) :: rest, key => if k = key then some v else lookupKV rest key

/-- Key membership in a Python dict. -/
def containsK {α : Type} (kvs : List (String × α)) (key : String) : Bool :=
  kvs.any (fun p => p.1 = key)

/-- `d[k] = v` on a Python dict: replace in place if the key exists
(keeping its position), append otherwise. -/
def insertKV {α : Type} : List (String × α) → String → α → List (String × α)
  | [], key, v => [(key, v)]
  | (k1, v1) :: rest, key, v =>
      if k1 = key then (key, v) :: rest else (k1, v1) :: insertKV rest key v

/-- `d.pop(k, None)` on a Python dict (keys are unique in Python dicts,
so removing every occurrence agrees with removing the single one). -/
def eraseKV {α : Type} (kvs : List (String × α)) (key : String) :
    List (String × α) :=
  kvs.filter (fun p => ¬ p.1 = key)

/-- `{**a, **b}` / `a.update(b)` on Python dicts. -/
def mergeKV {α : Type} (a b : List (String × α)) : List (String × α) :=
  b.foldl (fun acc p => insertKV acc p.1 p.2) a

/-- Keys of a Python dict, in order. -/
def keysOf {α : Type} (kvs : List (String × α)) : List String :=
  kvs.map Prod.fst

/-- Python truthiness (`bool(x)`). -/
def pyBool : Value → Bool
  | .vnull => false
  | .vint n => decide (n ≠ 0)
  | .vstr s => decide (s ≠ "")
  | .vbool b => b
  | .vlist xs => ¬ xs.isEmpty
  | .vdict kvs => ¬ kvs.isEmpty

/-- Membership in `Field.EMPTY_VALUES = [None, [], (), {}, set(), ""]`,
tested with Python `==` (tuples and sets do not occur in the modelled
value universe). -/
def isEmptyV : Value → Bool
  | .vnull => true
  | .vstr s => s.isEmpty
  | .vlist xs => xs.isEmpty
  | .vdict kvs => kvs.isEmpty
  | _ => false

mutual

/-- Python `str(x)`. -/
def pyStr : Value → String
  | .vnull => "None"
  | .vint n => toString n
  | .vstr s => s
  | .vbool b => if b then "True" else "False"
  | .vlist xs => "[" ++ pyReprList xs ++ "]"
  | .vdict kvs => "\x7b" ++ pyReprDict kvs ++ "\x7d"

/-- Python `repr(x)` (as used for elements inside container `str`);
it agrees with `str` except that strings are quoted. -/
def pyRepr : Value → String
  | .vstr s => "\x27" ++ s ++ "\x27"
  | .vnull => "None"
  | .vint n => toString n
  | .vbool b => if b then "True" else "False"
  | .vlist xs => "[" ++ pyReprList xs ++ "]"
  | .vdict kvs => "\x7b" ++ pyReprDict kvs ++ "\x7d"
termination_by structural v => v

/-- Comma-separated reprs of list elements. -/
def pyReprList : List Value → String
  | [] => ""
  | [x] => pyRepr x
  | x :: rest => pyRepr x ++ ", " ++ pyReprList rest
termination_by structural xs => xs

/-- Comma-separated reprs of dict items. -/
def pyReprDict : List (String × Value) → String
  | [] => ""
  | [(k, v)] => "\x27" ++ k ++ "\x27: " ++ pyRepr v
  | (k, v) :: rest =>
      "\x27" ++ k ++ "\x27: " ++ pyRepr v ++ ", " ++ pyReprDict rest
termination_by structural kvs => kvs

end

mutual

/-- Python `==` between values: numeric equality identifies bools with
0/1, dict equality is key-set based (order-insensitive), lists compare
elementwise. -/
def pyEq : Value → Value → Bool
  | .vnull, .vnull => true
  | .vint a, .vint b => a == b
  | .vint a, .vbool b => a == (if b then 1 else 0)
  | .vbool a, .vint b => (if a then (1 : Int) else 0) == b
  | .vbool a, .vbool b => a == b
  | .vstr a, .vstr b => a == b
  | .vlist a, .vlist b => pyEqList a b
  | .vdict a, .vdict b => a.length == b.length && pyEqDict a b
  | _, _ => false
termination_by structural v => v

/-- Elementwise Python `==` on lists. -/
def pyEqList : List Value → List Value → Bool
  | [], [] => true
  | x :: xs, y :: ys => pyEq x y && pyEqList xs ys
  | _, _ => false
termination_by structural xs => xs

/-- Every key of the first dict maps to `==`-equal values in the second. -/
def pyEqDict : List (String × Value) → List (String × Value) → Bool
  | [], _ => true
  | (k, v) :: rest, b =>
      (match lookupKV b k with
       | some w => pyEq v w
       | none => false) && pyEqDict rest b
termination_by structural kvs => kvs

end

/-- Python `str(type(x))`, as interpolated into validation messages. -/
def pyTypeName : Value → String
  | .vnull => "<class \x27NoneType\x27>"
  | .vint _ => "<class \x27int\x27>"
  | .vstr _ => "<class \x27str\x27>"
  | .vbool _ => "<class \x27bool\x27>"
  | .vlist _ => "<class \x27list\x27>"
  | .vdict _ => "<class \x27dict\x27>"

/-- `str(self._value_type)` for scalar value types. -/
def vtName : VType → String
  | .obj => "<class \x27object\x27>"
  | .tInt => "<class \x27int\x27>"
  | .tStr => "<class \x27str\x27>"
  | .tBool => "<class \x27bool\x27>"

/-- Python `isinstance(x, value_type)`; note `bool` is a subclass of
`int`, so bools are instances of `int`. -/
def typeMatches : VType → Value → Bool
  | .obj, _ => true
  | .tInt, .vint _ => true
  | .tInt, .vbool _ => true
  | .tStr, .vstr _ => true
  | .tBool, .vbool _ => true
  | _, _ => false

/-- Decimal digit parser for `int(str)`. -/
def digitsToNat : List Char → Option Nat
  | [] => none
  | cs => go cs 0
where
  go : List Char → Nat → Option Nat
  | [], acc => some acc
  | c :: rest, acc =>
      if c.isDigit then go rest (acc * 10 + (c.toNat - 48)) else none

/-- Python `int(s)` on strings: optional sign followed by digits. -/
def pyIntOfStr (s : String) : Option Int :=
  match s.toList with
  | '-' :: rest => (digitsToNat rest).map (fun n => -(n : Int))
  | '+' :: rest => (digitsToNat rest).map (fun n => (n : Int))
  | cs => (digitsToNat cs).map (fun n => (n : Int))

/-- `value_type(x)` conversion for scalar value types; the error string is
the message of the exception the Python constructor raises. -/
def coerceV : VType → Value → Except String Value
  | .obj, v => .ok v
  | .tStr, v => .ok (.vstr (pyStr v))
  | .tBool, v => .ok (.vbool (pyBool v))
  | .tInt, .vint n => .ok (.vint n)
  | .tInt, .vbool b => .ok (.vint (if b then 1 else 0))
  | .tInt, .vstr s =>
      match pyIntOfStr s with
      | some n => .ok (.vint n)
      | none =>
          .error ("invalid literal for int() with base 10: \x27" ++ s ++ "\x27")
  | .tInt, v =>
      .error ("int() argument must be a string, a bytes-like object or a real number, not "
              ++ pyTypeName v)

/-- Python `list(x)` (the default `_deserialize` of a `List` field). -/
def pyListCoerce : Value → Except PyErr Value
  | .vlist xs => .ok (.vlist xs)
  | .vstr s => .ok (.vlist (s.toList.map (fun c => .vstr (String.mk [c]))))
  | .vdict kvs => .ok (.vlist (kvs.map (fun p => .vstr p.1)))
  | v => .error (.typeError (pyTypeName v ++ " object is not iterable"))

example : lookupKV [("a", 1), ("b", 2)] ("b") = some 2 := rfl
example : insertKV [("a", 1), ("b", 2)] ("b") 3 = [("a", 1), ("b", 3)] := rfl
example : eraseKV [("a", 1), ("b", 2)] ("a") = [("b", 2)] := rfl
example : mergeKV [("a", 1)] [("a", 2), ("c", 3)] = [("a", 2), ("c", 3)] := rfl
example : pyEq (.vint 1) (.vbool true) = true := rfl
example : pyStr (.vlist [.vstr ("a"), .vint 2]) = "[\x27a\x27, 2]" := rfl
example : coerceV .tInt (.vstr ("123")) = .ok (.vint 123) := rfl
example : coerceV .tInt (.vstr ("-45")) = .ok (.vint (-45)) := rfl
example : (coerceV .tInt (.vstr ("x"))).isOk = false := rfl

/-- Per-field configuration and attribute state shared by every Field
variant: `_attrs`, `_default_attrs`, `_required`, `_validation_level`,
`_attrs_enabled`, `_default_value`. -/
structure FC where
  attrs : List (String × Value)
  defaultAttrs : List (String × Value)
  required : Bool
  vlevel : VLevel
  attrsEnabled : Bool
  defaultValue : Value

/-- A scalar field instance: value type, stored value, common state. -/
structure SField where
  vt : VType
  value : Value
  fc : FC

/-- The modelled Field hierarchy: scalar fields, `Dict` (with its property
map, the `__is_properties_defined` flag and `_inner_attrs_enabled`),
`List` (with a scalar element template) and `ConvertedDict` (with its
provisioned mapping depth `__depth`). -/
inductive Field where
  | scalar (s : SField) : Field
  | dictF (props : List (String × Field)) (pdef : Bool) (innerAttrs : Bool)
      (fc : FC) : Field
  | listF (elem : SField) (value : Value) (fc : FC) : Field
  | convDict (depth : Nat) (value : Value) (fc : FC) : Field

/-- The `FC` record of a field. -/
def Field.fcOf : Field → FC
  | .scalar s => s.fc
  | .dictF _ _ _ fc => fc
  | .listF _ _ fc => fc
  | .convDict _ _ fc => fc

/-- Replace the `FC` record of a field. -/
def Field.withFC : Field → FC → Field
  | .scalar s, fc => .scalar { s with fc := fc }
  | .dictF props pdef ia _, fc => .dictF props pdef ia fc
  | .listF e v _, fc => .listF e v fc
  | .convDict d v _, fc => .convDict d v fc

/-- Replace the instance attrs of a field. -/
def Field.withAttrs (f : Field) (attrs : List (String × Value)) : Field :=
  f.withFC { f.fcOf with attrs := attrs }

/-- Replace the validation level of a field. -/
def Field.withLevel (f : Field) (l : VLevel) : Field :=
  f.withFC { f.fcOf with vlevel := l }

/-- The default `FC` produced by `Field.__init__` with no arguments
(aside from `attrs_enabled`, which `Dict` passes explicitly when it
creates undefined sub-properties). -/
def freshFC (attrsEnabled : Bool) : FC :=
  { attrs := [],
    defaultAttrs := [("pretty_name", .vstr ("Поле")),
                     ("content_type", .vstr ("text"))],
    required := false,
    vlevel := .strict,
    attrsEnabled := attrsEnabled,
    defaultValue := .vnull }

/-- A fresh `Text(attrs_enabled=ae)` field as created by
`Dict.__add_undefined_property`. -/
def freshText (ae : Bool) : SField := { vt := .tStr, value := .vnull, fc := freshFC ae }

/-- The key "value". -/
def valueKey : String := "value"

/-- The key "warning". -/
def warningKey : String := "warning"

/-- `Field.set` effect on value and attrs: when attrs are enabled and the
input is a dict containing a "value" key, that key is popped off as the
new value and the remaining dict becomes the instance attrs; otherwise
the whole input becomes the value. -/
def fieldSetRaw (fc : FC) (v : Value) : Value × FC :=
  if fc.attrsEnabled then
    match v with
    | .vdict kvs =>
        if containsK kvs valueKey then
          ((lookupKV kvs valueKey).getD .vnull,
           { fc with attrs := eraseKV kvs valueKey })
        else (v, fc)
    | _ => (v, fc)
  else (v, fc)

/-- `Field.set` on a scalar field (it never raises). -/
def scalarSet (s : SField) (v : Value) : SField :=
  let (nv, fc') := fieldSetRaw s.fc v
  { s with value := nv, fc := fc' }

/-- `Field._clean` body on a scalar value: keep values that already are
instances of the value type, otherwise attempt `value_type(value)`, and
wrap any conversion error into a ValidationException. Returns the
(possibly converted) value; on error the stored value is unchanged. -/
def scalarCleanCore (vt : VType) (v : Value) : Value × Option PyErr :=
  if typeMatches vt v then (v, none)
  else
    match coerceV vt v with
    | .ok d => (d, none)
    | .error emsg =>
        (v, some (.validation ("Не удалось перобразовать значение поля типа "
            ++ pyTypeName v ++ " к " ++ vtName vt ++ " (" ++ emsg ++ ").")))

/-- The message of the required-but-empty ValidationException. -/
def requiredMsg : String :=
  "В данном поле ожидается значение, но оно осталось пустым."

/-- `Field.clean` on a scalar field: empty values are normalised to None
(raising when the field is required); otherwise `_clean` runs and its
ValidationException is re-raised (STRICT), recorded as the `warning`
attr (WARNING) or dropped (DISABLED). -/
def scalarCleanFull (s : SField) : SField × Option PyErr :=
  if isEmptyV s.value then
    if s.fc.required then (s, some (.validation requiredMsg))
    else ({ s with value := .vnull }, none)
  else
    match scalarCleanCore s.vt s.value with
    | (v', none) => ({ s with value := v' }, none)
    | (v', some (.validation m)) =>
        match s.fc.vlevel with
        | .strict => ({ s with value := v' }, some (.validation m))
        | .warning =>
            let fc2 : FC := { s.fc with attrs := insertKV s.fc.attrs warningKey (.vstr m) }
            ({ s with value := v', fc := fc2 }, none)
        | .disabled => ({ s with value := v' }, none)
    | (v', some e) => ({ s with value := v' }, some e)

example :
    scalarCleanFull { vt := .tInt, value := .vstr ("123"), fc := freshFC true } =
      ({ vt := .tInt, value := .vint 123, fc := freshFC true }, none) := rfl
example :
    (scalarCleanFull { vt := .tInt, value := .vstr ("x"), fc := freshFC true }).2.isSome = true := rfl


theorem sizeOf_list_pos {α : Type} [SizeOf α] (l : List α) : 1 ≤ sizeOf l := by
  cases l with
  | nil => simp
  | cons a t => simp; omega

theorem sizeOf_lookupKV {α : Type} [SizeOf α] :
    ∀ (kvs : List (String × α)) (k : String) (v : α),
      lookupKV kvs k = some v → sizeOf v < sizeOf kvs := by
  intro kvs k v h
  induction kvs with
  | nil => simp [lookupKV] at h
  | cons p rest ih =>
      obtain ⟨k1, v1⟩ := p
      rw [lookupKV] at h
      by_cases hk : k1 = k
      · simp [hk] at h
        subst h
        simp
        omega
      · simp [hk] at h
        have := ih h
        simp
        omega

theorem sizeOf_filter_le {α : Type} [SizeOf α] (p : α → Bool) (l : List α) :
    sizeOf (l.filter p) ≤ sizeOf l := by
  induction l with
  | nil => simp
  | cons a t ih =>
      rw [List.filter_cons]
      by_cases hp : p a
      · simp [hp]; omega
      · simp [hp]; omega

theorem sizeOf_insertKV_le {α : Type} [SizeOf α] :
    ∀ (kvs : List (String × α)) (key : String) (x w : α),
      lookupKV kvs key = some w → sizeOf x ≤ sizeOf w →
      sizeOf (insertKV kvs key x) ≤ sizeOf kvs := by
  intro kvs key x w h hle
  induction kvs with
  | nil => simp [lookupKV] at h
  | cons p rest ih =>
      obtain ⟨k1, v1⟩ := p
      rw [lookupKV] at h
      by_cases hk : k1 = key
      · simp [hk] at h
        subst h
        simp [insertKV, hk]
        omega
      · simp [hk] at h
        have := ih h
        simp [insertKV, hk]
        omega


/-- A Nat-pair lexicographic order helper for termination proofs. -/
theorem lexLt {a b c d : Nat} (h : a < c ∨ (a = c ∧ b < d)) :
    Prod.Lex (· < ·) (· < ·) (a, b) (c, d) := by
  rcases h with h | ⟨he, h⟩
  · exact Prod.Lex.left _ _ h
  · subst he; exact Prod.Lex.right _ h

/-- Entries of a value that is a dict; empty otherwise. -/
def entriesOf : Value → List (String × Value)
  | .vdict kvs => kvs
  | _ => []

/-- The TypeError message of `Dict.set` and of the `Dict.value` setter. -/
def dictTypeMsg (v : Value) : String :=
  "Value must be an instance of dict type, but got " ++ pyTypeName v

/-- The undeclared-key stripping phase of `Dict.set`: when the input dict
is truthy and `include_undefined` is off, keys outside the declared
property set are popped from the input in place (inside the "value" entry
when attrs are enabled and such an entry exists; `.keys()` on a non-dict
"value" entry raises AttributeError). -/
def stripUndeclared (props : List (String × Field)) (attrsOn : Bool)
    (kvs : List (String × Value)) (incl : Bool) :
    Except PyErr (List (String × Value)) :=
  if pyBool (.vdict kvs) && !incl then
    if attrsOn && containsK kvs valueKey then
      match lookupKV kvs valueKey with
      | some (.vdict inner) =>
          .ok (insertKV kvs valueKey
                (.vdict (inner.filter (fun p => containsK props p.1))))
      | some w =>
          .error (.attrError
            (pyTypeName w ++ " object has no attribute \x27keys\x27"))
      | none => .ok kvs
    else .ok (kvs.filter (fun p => containsK props p.1))
  else .ok kvs

theorem sizeOf_stripUndeclared {props : List (String × Field)}
    {attrsOn : Bool} {kvs kvs2 : List (String × Value)} {incl : Bool}
    (h : stripUndeclared props attrsOn kvs incl = .ok kvs2) :
    sizeOf kvs2 ≤ sizeOf kvs := by
  unfold stripUndeclared at h
  by_cases h1 : (pyBool (.vdict kvs) && !incl) = true
  · rw [if_pos h1] at h
    by_cases h2 : (attrsOn && containsK kvs valueKey) = true
    · rw [if_pos h2] at h
      cases hl : lookupKV kvs valueKey with
      | none => rw [hl] at h; simp at h; subst h; omega
      | some w =>
          rw [hl] at h
          cases w with
          | vdict inner =>
              simp at h
              subst h
              apply sizeOf_insertKV_le _ _ _ _ hl
              have := sizeOf_filter_le (fun p => containsK props p.1) inner
              simp
              omega
          | vnull => simp at h
          | vint n => simp at h
          | vstr s => simp at h
          | vbool b => simp at h
          | vlist xs => simp at h
    · rw [if_neg h2] at h
      simp at h
      subst h
      exact sizeOf_filter_le _ kvs
  · rw [if_neg h1] at h
    simp at h
    subst h
    omega

theorem sizeOf_fieldSetRaw_fst (fc : FC) (l : List (String × Value)) :
    sizeOf (fieldSetRaw fc (.vdict l)).1 ≤ 1 + sizeOf l := by
  unfold fieldSetRaw
  by_cases ha : fc.attrsEnabled = true
  · simp only [ha, if_pos]
    by_cases hc : containsK l valueKey = true
    · simp only [hc, if_pos]
      cases hl : lookupKV l valueKey with
      | none => simp [hl]
      | some w =>
          simp [hl]
          have := sizeOf_lookupKV l valueKey w hl
          omega
    · simp [hc]
  · simp [ha]

theorem sizeOf_fc_pos (fc : FC) : 1 ≤ sizeOf fc := by
  cases fc
  simp
  omega

theorem sizeOf_field_pos (f : Field) : 1 ≤ sizeOf f := by
  cases f <;> simp <;> omega

theorem sizeOf_value_pos (v : Value) : 1 ≤ sizeOf v := by
  cases v <;> simp <;> omega

mutual

/-- `set` on a field. Scalars, `List` and `ConvertedDict` use `Field.set`
(`fieldSetRaw`: split off a "value" key into attrs when attrs are
enabled). For `Dict` the flow is `Dict.set` (force admit-all when no
properties were declared, TypeError for truthy non-dicts, undeclared-key
stripping), then `Field.set`, then the `value` property setter, which
rebuilds every declared property and admits remaining keys through
`Dict.update(..., include_undefined=True)`. -/
def setF : Field → Value → Bool → Field × Option PyErr
  | .scalar s, v, _ => (.scalar (scalarSet s v), none)
  | .listF e _ fc, v, _ =>
      let r := fieldSetRaw fc v
      (.listF e r.1 r.2, none)
  | .convDict d _ fc, v, _ =>
      let r := fieldSetRaw fc v
      (.convDict d r.1 r.2, none)
  | .dictF props pdef ia fc, v, incl =>
      match v with
      | .vdict kvs => setDictKvs props pdef ia fc kvs (incl || !pdef)
      | w =>
          if pyBool w then
            (.dictF props pdef ia fc, some (.typeError (dictTypeMsg w)))
          else
            let u := setEntries props ia []
            (.dictF u.1 pdef ia fc, u.2)
termination_by f v _ => (sizeOf v, sizeOf f)
decreasing_by
  · apply lexLt
    simp
    omega
  · apply lexLt
    rename_i w hw
    have h1 := sizeOf_value_pos w
    have h2 := sizeOf_fc_pos fc
    simp
    omega

/-- `Dict.set` on a dict input (after `include_undefined` has been forced
on for composites with no declared properties). -/
def setDictKvs (props : List (String × Field)) (pdef ia : Bool) (fc : FC)
    (kvs : List (String × Value)) (incl : Bool) : Field × Option PyErr :=
  match hs : stripUndeclared props fc.attrsEnabled kvs incl with
  | .error e => (.dictF props pdef ia fc, some e)
  | .ok kvs2 =>
      let r := fieldSetRaw fc (.vdict kvs2)
      match hv : r.1 with
      | .vdict kvs3 =>
          let u := setEntries props ia kvs3
          (.dictF u.1 pdef ia r.2, u.2)
      | w =>
          if pyBool w then
            (.dictF props pdef ia r.2, some (.typeError (dictTypeMsg w)))
          else
            let u := setEntries props ia []
            (.dictF u.1 pdef ia r.2, u.2)
termination_by (sizeOf kvs + 1, 0)
decreasing_by
  · apply lexLt
    left
    have hA := sizeOf_stripUndeclared hs
    have hB := sizeOf_fieldSetRaw_fst fc kvs2
    rw [hv] at hB
    simp at hB
    omega
  · apply lexLt
    left
    have := sizeOf_list_pos kvs
    simp
    omega

/-- The `value` property setter's update pass: set every declared
property (from the incoming dict, or to None), then admit the remaining
undeclared keys. -/
def setEntries (props : List (String × Field)) (ia : Bool)
    (kvs : List (String × Value)) : List (String × Field) × Option PyErr :=
  match setDeclared props kvs with
  | (props1, some e) => (props1, some e)
  | (props1, none) => setUndeclared props1 ia kvs
termination_by (sizeOf kvs, sizeOf props + 2)
decreasing_by
  · apply lexLt
    omega
  · apply lexLt
    omega

/-- Set every declared property to its incoming value (or None when the
incoming dict has no entry for it); a child `set` error aborts the pass. -/
def setDeclared (props : List (String × Field))
    (kvs : List (String × Value)) : List (String × Field) × Option PyErr :=
  match props with
  | [] => ([], none)
  | (k, c) :: rest =>
      match setF c ((lookupKV kvs k).getD .vnull) false with
      | (c', some e) => ((k, c') :: rest, some e)
      | (c', none) =>
          let u := setDeclared rest kvs
          ((k, c') :: u.1, u.2)
termination_by (sizeOf kvs, sizeOf props + 1)
decreasing_by
  · cases hl : lookupKV kvs k with
    | some w =>
        have := sizeOf_lookupKV kvs k w hl
        apply lexLt
        left
        simp [hl]
        omega
    | none =>
        apply lexLt
        have := sizeOf_list_pos kvs
        simp [hl]
        omega
  · apply lexLt
    simp

/-- Admit the undeclared keys of the incoming dict as new properties. -/
def setUndeclared (props : List (String × Field)) (ia : Bool)
    (kvs : List (String × Value)) : List (String × Field) × Option PyErr :=
  match kvs with
  | [] => (props, none)
  | (k, sv) :: rest =>
      if containsK props k then setUndeclared props ia rest
      else
        match addUndef props ia k sv with
        | (props', some e) => (props', some e)
        | (props', none) => setUndeclared props' ia rest
termination_by (sizeOf kvs, 0)
decreasing_by
  all_goals apply lexLt
  all_goals simp
  all_goals omega

/-- `Dict.__add_undefined_property`: a dict value without a "value" key
becomes a nested open-mode `Dict` (set with `include_undefined=True`);
anything else becomes a `Text` sub-field; both are created with the
parent's `_inner_attrs_enabled` as their `attrs_enabled`. -/
def addUndef (props : List (String × Field)) (ia : Bool) (k : String)
    (sv : Value) : List (String × Field) × Option PyErr :=
  match sv with
  | .vdict kvs2 =>
      if containsK kvs2 valueKey then
        (insertKV props k (.scalar (scalarSet (freshText ia) sv)), none)
      else
        match setF (.dictF [] false false (freshFC ia)) (.vdict kvs2) true with
        | (p, none) => (insertKV props k p, none)
        | (_, some e) => (props, some e)
  | _ => (insertKV props k (.scalar (scalarSet (freshText ia) sv)), none)
termination_by (sizeOf sv + 1, 0)
decreasing_by
  apply lexLt
  simp

end


mutual

/-- `self.value = None` as performed by `Field.clean` on empty values and
by `child.set(None)`: for `Dict` the value setter clears every declared
property recursively; other variants just store None. Attrs are untouched. -/
def assignNullV : Field → Field
  | .scalar s => .scalar { s with value := .vnull }
  | .dictF props pdef ia fc => .dictF (clearProps props) pdef ia fc
  | .listF e _ fc => .listF e .vnull fc
  | .convDict d _ fc => .convDict d .vnull fc
termination_by structural f => f

/-- Clear every property of a `Dict` (each `child.set(None)`). -/
def clearProps : List (String × Field) → List (String × Field)
  | [] => []
  | (k, c) :: rest => (k, assignNullV c) :: clearProps rest
termination_by structural props => props

end

/-- The restriction pass of `Field.set_attrs` without `include_undefined`:
iterate the already-known attr names and keep only those present in the
incoming dict. -/
def restrictAttrs (names : List String) (kvs : List (String × Value)) :
    List (String × Value) :=
  names.foldl
    (fun acc n =>
      match lookupKV kvs n with
      | some v => insertKV acc n v
      | none => acc) []

/-- `Field.set_attrs`: the "value" key is always popped; with
`include_undefined` the remaining dict replaces the instance attrs
wholesale; otherwise only keys already known (instance attr keys followed
by default attr keys) are kept. -/
def setAttrsF (f : Field) (attrs : List (String × Value)) (incl : Bool) :
    Field :=
  let attrs2 := eraseKV attrs valueKey
  if incl then f.withAttrs attrs2
  else
    f.withAttrs
      (restrictAttrs (keysOf (f.fcOf).attrs ++ keysOf (f.fcOf).defaultAttrs)
        attrs2)

/-- `Field.update_attrs`: merge the incoming attrs over the existing ones
and delegate to `set_attrs`. -/
def updateAttrsF (f : Field) (attrs : List (String × Value)) (incl : Bool) :
    Field :=
  setAttrsF f (mergeKV (f.fcOf).attrs attrs) incl

/-- Replace the property stored under a key with the result of `set` on
it (`self._properties[name].set(value)`). -/
def setPropAt : List (String × Field) → String → Value →
    List (String × Field) × Option PyErr
  | [], _, _ => ([], none)
  | (k1, c) :: rest, k, sv =>
      if k1 = k then
        let r := setF c sv false
        ((k1, r.1) :: rest, r.2)
      else
        let u := setPropAt rest k sv
        ((k1, c) :: u.1, u.2)

/-- The loop of `Dict.update`: declared keys are `set` on their property,
undeclared keys are admitted only under `include_undefined`. -/
def dictUpdateEntries (props : List (String × Field)) (ia : Bool)
    (kvs : List (String × Value)) (incl : Bool) :
    List (String × Field) × Option PyErr :=
  match kvs with
  | [] => (props, none)
  | (k, sv) :: rest =>
      if containsK props k then
        match setPropAt props k sv with
        | (props', some e) => (props', some e)
        | (props', none) => dictUpdateEntries props' ia rest incl
      else if incl then
        match addUndef props ia k sv with
        | (props', some e) => (props', some e)
        | (props', none) => dictUpdateEntries props' ia rest incl
      else dictUpdateEntries props ia rest incl

/-- `update` on a field: `Field.update` merges the existing attrs into a
full-packed dict before delegating to `set`; `Dict.update` treats falsy
values as `{}`, rejects truthy non-dicts, and runs the update loop with
`include_undefined` forced on for composites with no declared properties. -/
def updateF (f : Field) (v : Value) (incl : Bool) : Field × Option PyErr :=
  match f with
  | .dictF props pdef ia fc =>
      match v with
      | .vdict kvs =>
          if kvs.isEmpty then (.dictF props pdef ia fc, none)
          else
            let u := dictUpdateEntries props ia kvs (incl || !pdef)
            (.dictF u.1 pdef ia fc, u.2)
      | w =>
          if pyBool w then
            (.dictF props pdef ia fc,
             some (.typeError ("Update method can only work with dictionaries, but got "
                ++ pyTypeName w ++ " instead.")))
          else (.dictF props pdef ia fc, none)
  | _ =>
      match v with
      | .vdict kvs =>
          if (f.fcOf).attrsEnabled && containsK kvs valueKey then
            setF f (.vdict (mergeKV (f.fcOf).attrs kvs)) incl
          else setF f v incl
      | _ => setF f v incl

mutual

/-- `ConvertedDict.__convert_dict`: dict values become
`{"key": k, "inner_dict": <recursively converted>}` records, everything
else becomes `{"key": k, "value": v}` records. -/
def convertDict : List (String × Value) → List Value
  | [] => []
  | (k, v) :: rest => convertEntry k v :: convertDict rest
termination_by structural kvs => kvs

/-- One record of `__convert_dict`. -/
def convertEntry (k : String) : Value → Value
  | .vdict inner =>
      .vdict [("key", .vstr k), ("inner_dict", .vlist (convertDict inner))]
  | v => .vdict [("key", .vstr k), ("value", v)]
termination_by structural v => v

end

/-- `List._serialize`: a deepcopy of the element template is `set` to
each element in turn and its `_serialize` result (the stored value) is
collected; the copy is reused across elements. -/
def listSerialLoop (e : SField) : List Value → List Value
  | [] => []
  | x :: xs =>
      let e1 := scalarSet e x
      e1.value :: listSerialLoop e1 xs

/-- The attrs wrapping of `Field.serialize`:
`{"value": v, **attrs}`, with the default attrs layered in first when
`include_all_attrs` is requested; disabled attrs leave the bare value. -/
def wrapAttrs (f : Field) (includeAll : Bool) (v : Value) : Value :=
  if (f.fcOf).attrsEnabled then
    .vdict (mergeKV (mergeKV [(valueKey, v)]
      (if includeAll then (f.fcOf).defaultAttrs else [])) (f.fcOf).attrs)
  else v

/-- The body of `Field.serialize` given the `_serialize` result: an empty
value falls back to the default value, and if that is also empty the
whole field serializes to None (unwrapped). -/
def serialGlue (f : Field) (includeAll : Bool) (v : Value) : Value :=
  if isEmptyV v then
    if isEmptyV (f.fcOf).defaultValue then .vnull
    else wrapAttrs f includeAll (f.fcOf).defaultValue
  else wrapAttrs f includeAll v

mutual

/-- `self.value`: the stored value for scalars, `List` and
`ConvertedDict`; for `Dict` the computed property collecting
`{name: prop.serialize()}` over the declared properties whose value is
not empty. -/
def valueOf : Field → Value
  | .scalar s => s.value
  | .listF _ v _ => v
  | .convDict _ v _ => v
  | .dictF props _ _ _ => .vdict (dictValueEntries props)
termination_by structural f => f

/-- The entries of the computed `Dict.value` property. -/
def dictValueEntries : List (String × Field) → List (String × Value)
  | [] => []
  | (k, c) :: rest =>
      if isEmptyV (valueOf c) then dictValueEntries rest
      else (k, serialGlue c false (serialCore c)) :: dictValueEntries rest
termination_by structural props => props

/-- `Field._serialize` per variant: scalars and `Dict` return `self.value`
(computed for `Dict`); `List` maps the element template's `_serialize`
over list values and stringifies non-lists; `ConvertedDict` converts dict
values to the anti-explosion record list and wraps non-dicts as
`{"value": str(value)}`. -/
def serialCore : Field → Value
  | .scalar s => s.value
  | .dictF props _ _ _ => .vdict (dictValueEntries props)
  | .listF e v _ =>
      match v with
      | .vlist xs => .vlist (listSerialLoop e xs)
      | w => .vstr (pyStr w)
  | .convDict _ v _ =>
      match v with
      | .vdict kvs => .vlist (convertDict kvs)
      | w => .vdict [(valueKey, .vstr (pyStr w))]
termination_by structural f => f

end

/-- `Field.serialize` (public). -/
def serializeF (f : Field) (includeAll : Bool) : Value :=
  serialGlue f includeAll (serialCore f)


/-- The key "key" of converted-dict records. -/
def keyKey : String := "key"

/-- The key "inner_dict" of converted-dict records. -/
def innerKey : String := "inner_dict"

mutual

/-- `ConvertedDict.__determine_depth`: non-empty dicts have depth
`1 + max` over their values, everything else has depth 0. -/
def determineDepth : Value → Nat
  | .vdict [] => 0
  | .vdict (p :: rest) => 1 + maxDepthKvs (p :: rest)
  | _ => 0
termination_by structural v => v

/-- `max(map(determine_depth, values))` (with 0 for the empty fold). -/
def maxDepthKvs : List (String × Value) → Nat
  | [] => 0
  | (_, v) :: rest => max (determineDepth v) (maxDepthKvs rest)
termination_by structural kvs => kvs

end

mutual

/-- `ConvertedDict.__deconvert_dict`: falsy or non-list data is passed
through (a dict with a "value" key collapses to that entry); a non-empty
list must consist of records carrying a "key" and exactly one of
"value"/"inner_dict", which are folded back into a dict. -/
def deconvertDict : Value → Except PyErr Value
  | .vlist (p :: ps) =>
      match deconvertPairs (p :: ps) [] with
      | .ok kvs => .ok (.vdict kvs)
      | .error e => .error e
  | .vdict kvs =>
      match lookupKV kvs valueKey with
      | some v => .ok v
      | none => .ok (.vdict kvs)
  | v => .ok v
termination_by structural v => v

/-- The record loop of `__deconvert_dict`; `acc` is the dict built so
far. Records that are not dicts make the source fail with an uncaught
exception while probing their keys, modelled as a TypeError. The source
stores keys via `result[pair["key"]]`, so only string keys are
representable; converted data always has string keys. -/
def deconvertPairs : List Value → List (String × Value) →
    Except PyErr (List (String × Value))
  | [], acc => .ok acc
  | p :: ps, acc =>
      match p with
      | .vdict kvs =>
          if (containsK kvs valueKey && containsK kvs innerKey)
              || (!containsK kvs valueKey && !containsK kvs innerKey)
              || !containsK kvs keyKey then
            .error (.valueError "Incorrect structure of converted dict.")
          else
            match lookupKV kvs keyKey with
            | some (.vstr k) =>
                if containsK kvs valueKey then
                  deconvertPairs ps (insertKV acc k ((lookupKV kvs valueKey).getD .vnull))
                else
                  match deconvInner kvs with
                  | .ok inner => deconvertPairs ps (insertKV acc k inner)
                  | .error e => .error e
            | _ => .error (.typeError "unhashable key in converted dict record")
      | w => .error (.typeError ("argument of type " ++ pyTypeName w ++ " is not iterable"))
termination_by structural ps => ps

/-- Find the "inner_dict" entry of a record and deconvert it. -/
def deconvInner : List (String × Value) → Except PyErr Value
  | [] => .ok .vnull
  | (k, v) :: rest =>
      if k = innerKey then deconvertDict v else deconvInner rest
termination_by structural kvs => kvs

end

/-- The attrs unwrapping of `Field.deserialize`: when attrs are enabled,
a dict with a "value" key deserializes its "value" entry; everything else
deserializes whole. -/
def unwrapD (fc : FC) (data : Value) : Value :=
  if fc.attrsEnabled then
    match data with
    | .vdict kvs =>
        match lookupKV kvs valueKey with
        | some v => v
        | none => data
    | _ => data
  else data

mutual

/-- `Field._deserialize` per variant: the untyped base field stringifies,
typed scalars run `value_type(data)` (failures propagate unwrapped),
`List` runs `list(data)`, `ConvertedDict` deconverts, and `Dict` maps the
declared properties' `deserialize` over the matching entries (falsy data
deserializes to None, truthy non-dicts fail looking up `.items()`). -/
def deserCore : Field → Value → Except PyErr Value
  | .scalar s, d =>
      if s.vt = .obj then .ok (.vstr (pyStr d))
      else
        match coerceV s.vt d with
        | .ok r => .ok r
        | .error m => .error (.valueError m)
  | .listF _ _ _, d => pyListCoerce d
  | .convDict _ _ _, d => deconvertDict d
  | .dictF props _ _ _, d =>
      if pyBool d then
        match d with
        | .vdict kvs =>
            match deserEntries props kvs with
            | .ok kvs' => .ok (.vdict kvs')
            | .error e => .error e
        | w =>
            .error (.attrError (pyTypeName w ++ " object has no attribute \x27items\x27"))
      else .ok .vnull
termination_by f _ => (sizeOf f, 1)

/-- The entry loop of `Dict._deserialize` (entries under undeclared names
are kept as they are). -/
def deserEntries (props : List (String × Field))
    (kvs : List (String × Value)) : Except PyErr (List (String × Value)) :=
  match kvs with
  | [] => .ok []
  | (k, v) :: rest =>
      match deserAt props k v with
      | .error e => .error e
      | .ok v' =>
          match deserEntries props rest with
          | .ok rest' => .ok ((k, v') :: rest')
          | .error e => .error e
termination_by (sizeOf props, 2 + sizeOf kvs)

/-- Find the property declared under a key and run its (public)
`deserialize` on the entry; undeclared keys pass through. -/
def deserAt (props : List (String × Field)) (k : String) (v : Value) :
    Except PyErr Value :=
  match props with
  | [] => .ok v
  | (k1, c) :: rest =>
      if k1 = k then deserCore c (unwrapD (c.fcOf) v)
      else deserAt rest k v
termination_by (sizeOf props, 0)

end

/-- `Field.deserialize` (public) without auto-set: unwrap the attrs
envelope and run the type-specific `_deserialize`. -/
def deserializeVal (f : Field) (data : Value) : Except PyErr Value :=
  deserCore f (unwrapD (f.fcOf) data)

/-- `str(error)` for the embedded exceptions. -/
def pyErrStr : PyErr → String
  | .validation m => m
  | .initRequired => "The initialization of index is required to continue."
  | .typeError m => m
  | .attrError m => m
  | .valueError m => m


/-- `ConvertedDict.__update_mapping` with no explicit depth: recompute the
value's depth, and regenerate the (depth-determined) record schema when
it exceeds the provisioned depth. Returns the new depth and whether the
mapping changed. -/
def updateMapping (depth : Nat) (v : Value) : Nat × Bool :=
  let cur := determineDepth v
  if cur ≤ depth then (depth, false) else (cur, true)

/-- `ConvertedDict.__init__`: `__update_mapping(1)` provisions depth 1 on
a fresh instance (class-level `__depth = 0`, value None). -/
def convInit (fc : FC) : Field := .convDict 1 .vnull fc

/-- `List.__init__`: the element template's validation level is forced to
STRICT; the stored value starts as the class-level None. -/
def listInit (elem : SField) (fc : FC) : Field :=
  .listF { elem with fc := { elem.fc with vlevel := .strict } } .vnull fc

/-- `Field._clean` for a `ConvertedDict` state: the inherited
`Field._clean` first coerces non-dict values through `_deserialize`
(deconversion), wrapping any failure as a ValidationException; non-dict
results are then rejected, and the mapping is re-provisioned, raising
InitializationRequired exactly when the provisioned depth grew. -/
def convCleanCore (depth : Nat) (v : Value) : (Nat × Value) × Option PyErr :=
  match v with
  | .vdict kvs =>
      let r := updateMapping depth (.vdict kvs)
      if r.2 then ((r.1, v), some .initRequired) else ((r.1, v), none)
  | w =>
      match deconvertDict w with
      | .error e =>
          ((depth, w),
           some (.validation ("Не удалось перобразовать значение поля типа "
             ++ pyTypeName w ++ " к <class \x27dict\x27> (" ++ pyErrStr e ++ ").")))
      | .ok v1 =>
          match v1 with
          | .vdict kvs =>
              let r := updateMapping depth (.vdict kvs)
              if r.2 then ((r.1, .vdict kvs), some .initRequired)
              else ((r.1, .vdict kvs), none)
          | w1 => ((depth, w1), some (.validation "Значение поля не является словарем."))

/-- `List._clean` loop: a deepcopy of the element template is `set` and
`clean`ed per element (the copy threads through the loop), writing
cleaned values back in place; the first element-level ValidationException
aborts the pass wrapped in the element message. Scalar `set` never
raises, so the source's set-wrapping branch is unreachable here; a
non-validation exception from the element propagates unwrapped. -/
def listCleanLoop (e : SField) : List Value → List Value × Option PyErr
  | [] => ([], none)
  | x :: xs =>
      let e1 := scalarSet e x
      match scalarCleanFull e1 with
      | (e2, none) =>
          let u := listCleanLoop e2 xs
          (e2.value :: u.1, u.2)
      | (_, some (.validation m)) =>
          (x :: xs, some (.validation ("Не удалось валидировать элемент "
            ++ pyStr x ++ " списка: " ++ m ++ ".")))
      | (_, some err) => (x :: xs, some err)

/-- The body of `Field.clean` given the `_clean` outcome: empty values
short-circuit (required fields raise, others are normalised to None and
`_clean` never runs); a ValidationException from `_clean` is re-raised
under STRICT, recorded as the `warning` attr under WARNING, and dropped
under DISABLED; other exceptions (InitializationRequired) propagate
regardless of the level. -/
def cleanGlue (f : Field) (core : Field × Option PyErr) : Field × Option PyErr :=
  if isEmptyV (valueOf f) then
    if (f.fcOf).required then (f, some (.validation requiredMsg))
    else (assignNullV f, none)
  else
    match core with
    | (f', none) => (f', none)
    | (f', some (.validation m)) =>
        match (f.fcOf).vlevel with
        | .strict => (f', some (.validation m))
        | .warning =>
            (f'.withAttrs (insertKV (f'.fcOf).attrs warningKey (.vstr m)), none)
        | .disabled => (f', none)
    | (f', some e) => (f', some e)

mutual

/-- `Field._clean` per variant (the state is threaded even on failure,
since the source mutates in place before raising). -/
def coreF : Field → Field × Option PyErr
  | .scalar s =>
      let r := scalarCleanCore s.vt s.value
      (.scalar { s with value := r.1 }, r.2)
  | .dictF props pdef ia fc =>
      let u := dictCleanProps props
      match u.2.2 with
      | some e => (.dictF u.1 pdef ia fc, some e)
      | none =>
          if u.2.1 = "" then (.dictF u.1 pdef ia fc, none)
          else (.dictF u.1 pdef ia fc, some (.validation u.2.1))
  | .listF e v fc =>
      match v with
      | .vlist xs =>
          let u := listCleanLoop e xs
          (.listF e (.vlist u.1) fc, u.2)
      | w =>
          (.listF e w fc,
           some (.validation "Значение поля не является списком."))
  | .convDict d v fc =>
      let u := convCleanCore d v
      (.convDict u.1.1 u.1.2 fc, u.2)
termination_by structural f => f

/-- The loop of `Dict._clean`: every property is cleaned (via the public
`clean`, so per-child levels apply); per-child ValidationExceptions are
collected into one message; any other exception aborts the loop and
propagates, discarding the message collected so far. -/
def dictCleanProps : List (String × Field) →
    List (String × Field) × (String × Option PyErr)
  | [] => ([], ("", none))
  | (k, c) :: rest =>
      match cleanGlue c (coreF c) with
      | (c', none) =>
          let u := dictCleanProps rest
          ((k, c') :: u.1, u.2)
      | (c', some (.validation m)) =>
          let u := dictCleanProps rest
          ((k, c') :: u.1,
           ("Поле " ++ k ++ " не было успешно валидировано: " ++ m ++ ". "
              ++ u.2.1, u.2.2))
      | (c', some e) => ((k, c') :: rest, ("", some e))
termination_by structural props => props

end

/-- `Field.clean` (public). -/
def cleanF (f : Field) : Field × Option PyErr := cleanGlue f (coreF f)

/-- `Field.deserialize(data, auto_set=True)` effect on the field state;
for `ConvertedDict` the mapping depth is re-provisioned afterwards (the
changed flag is discarded, no InitializationRequired is raised). -/
def deserializeOp (f : Field) (data : Value) : Field × Option PyErr :=
  match deserializeVal f data with
  | .error e => (f, some e)
  | .ok r =>
      match setF f r false with
      | (f1, some e) => (f1, some e)
      | (f1, none) =>
          match f1 with
          | .convDict d v fc =>
              let r2 := updateMapping d v
              (.convDict r2.1 v fc, none)
          | g => (g, none)

/-- The public mutating operations quantified over in the attrs
invariant. -/
inductive FOp where
  | oSet (v : Value) (incl : Bool) : FOp
  | oUpdate (v : Value) (incl : Bool) : FOp
  | oSetAttrs (kvs : List (String × Value)) (incl : Bool) : FOp
  | oUpdateAttrs (kvs : List (String × Value)) (incl : Bool) : FOp
  | oDeserialize (v : Value) : FOp

/-- Apply one public operation, keeping the mutated state even when the
operation raises. -/
def applyOp (f : Field) (op : FOp) : Field :=
  match op with
  | .oSet v incl => (setF f v incl).1
  | .oUpdate v incl => (updateF f v incl).1
  | .oSetAttrs kvs incl => setAttrsF f kvs incl
  | .oUpdateAttrs kvs incl => updateAttrsF f kvs incl
  | .oDeserialize v => (deserializeOp f v).1


/-- The element template of a `List` field. -/
def listElemOf : Field → Option SField
  | .listF e _ _ => some e
  | _ => none

/-- The provisioned depth of a `ConvertedDict` field. -/
def convDepthOf : Field → Nat
  | .convDict d _ _ => d
  | _ => 0

/-- C10: the List constructor always overwrites its element template's
validation level to STRICT, regardless of the level the template was
configured with; consequently the constructed field — and therefore every
subsequent `set`/`clean` on it — is identical whatever WARNING or
DISABLED setting the template carried, so such a setting never takes
effect for per-element validation. -/
theorem C10_list_forces_strict_element (elem : SField) (l : VLevel) (fc : FC) :
    (listElemOf (listInit elem fc)).map (fun e => e.fc.vlevel) = some .strict ∧
    listInit { elem with fc := { elem.fc with vlevel := l } } fc = listInit elem fc ∧
    (∀ v, cleanF (setF (listInit { elem with fc := { elem.fc with vlevel := l } } fc) v false).1 =
          cleanF (setF (listInit elem fc) v false).1) := by
  refine ⟨rfl, ?_, ?_⟩
  · simp [listInit]
  · intro v
    simp [listInit]

theorem cleanF_conv_vdict (d : Nat) (kvs : List (String × Value)) (fc : FC)
    (h : kvs ≠ []) :
    cleanF (.convDict d (.vdict kvs) fc) =
      if determineDepth (.vdict kvs) ≤ d then (.convDict d (.vdict kvs) fc, none)
      else (.convDict (determineDepth (.vdict kvs)) (.vdict kvs) fc,
            some .initRequired) := by
  have hemp : isEmptyV (valueOf (.convDict d (.vdict kvs) fc)) = false := by
    simp [valueOf, isEmptyV, h]
  unfold cleanF cleanGlue
  rw [if_neg (by rw [hemp]; simp)]
  simp only [coreF, convCleanCore, updateMapping]
  by_cases hle : determineDepth (.vdict kvs) ≤ d
  · rw [if_pos hle]
    simp
    rw [if_pos hle]
  · rw [if_neg hle]
    simp
    rw [if_neg hle]

/-- C2: with provisioned schema depth `d`, cleaning a dict value of
nesting depth at most `d` never signals InitializationRequired and leaves
the depth unchanged; cleaning a dict value of depth `d + 1` signals it
exactly once: the first clean raises InitializationRequired with the
depth brought to `d + 1` and the value retained, after which cleaning the
same value again succeeds without signalling and without changing the
state. -/
theorem C2_convdict_depth_monotonicity (d : Nat)
    (kvs : List (String × Value)) (fc : FC) :
    (determineDepth (.vdict kvs) ≤ d →
      ∀ f' e, cleanF (.convDict d (.vdict kvs) fc) = (f', e) →
        e ≠ some .initRequired ∧ convDepthOf f' = d) ∧
    (determineDepth (.vdict kvs) = d + 1 →
      cleanF (.convDict d (.vdict kvs) fc) =
        (.convDict (d + 1) (.vdict kvs) fc, some .initRequired) ∧
      cleanF (.convDict (d + 1) (.vdict kvs) fc) =
        (.convDict (d + 1) (.vdict kvs) fc, none)) := by
  constructor
  · intro hle f' e h
    by_cases hkvs : kvs = []
    · subst hkvs
      unfold cleanF cleanGlue at h
      rw [if_pos (by simp [valueOf, isEmptyV])] at h
      by_cases hreq : (Field.fcOf (.convDict d (.vdict []) fc)).required = true
      · rw [if_pos hreq] at h
        rw [Prod.mk.injEq] at h
        refine ⟨?_, ?_⟩
        · rw [← h.2]; intro hc; cases hc
        · rw [← h.1]; rfl
      · rw [if_neg hreq] at h
        rw [Prod.mk.injEq] at h
        refine ⟨?_, ?_⟩
        · rw [← h.2]; intro hc; cases hc
        · rw [← h.1]; rfl
    · rw [cleanF_conv_vdict d kvs fc hkvs, if_pos hle, Prod.mk.injEq] at h
      refine ⟨?_, ?_⟩
      · rw [← h.2]; intro hc; cases hc
      · rw [← h.1]; rfl
  · intro hd
    have hkvs : kvs ≠ [] := by
      intro hc
      subst hc
      simp [determineDepth] at hd
    constructor
    · rw [cleanF_conv_vdict d kvs fc hkvs, if_neg (by omega), hd]
    · rw [cleanF_conv_vdict (d + 1) kvs fc hkvs, if_pos (by omega)]

/-- Witness for C2 at a concrete state: depth 1, a flat dict (depth 1)
does not signal; a dict of depth 2 signals once, bumping the depth to 2,
and a second clean of the same value is silent. -/
theorem C2_witness :
    (∀ f' e, cleanF (.convDict 1 (.vdict [("a", .vint 1)]) (freshFC true)) = (f', e) →
        e ≠ some .initRequired ∧ convDepthOf f' = 1) ∧
    (cleanF (.convDict 1 (.vdict [("a", .vdict [("b", .vint 2)])]) (freshFC true)) =
      (.convDict 2 (.vdict [("a", .vdict [("b", .vint 2)])]) (freshFC true),
       some .initRequired) ∧
     cleanF (.convDict 2 (.vdict [("a", .vdict [("b", .vint 2)])]) (freshFC true)) =
      (.convDict 2 (.vdict [("a", .vdict [("b", .vint 2)])]) (freshFC true), none)) := by
  constructor
  · exact (C2_convdict_depth_monotonicity 1 [("a", .vint 1)] (freshFC true)).1 (by decide)
  · exact (C2_convdict_depth_monotonicity 1 [("a", .vdict [("b", .vint 2)])] (freshFC true)).2 (by decide)


/-- C4 counterexample: a never-set attrs-enabled `List` field with an
empty default serializes to {"value": "None"} rather than to None —
`List._serialize` stringifies its unset value (`str(None)`), which is not
an empty sentinel, so the None fallback of the claim never happens. -/
theorem C4_counterexample :
    serializeF (listInit { vt := .tStr, value := .vnull, fc := freshFC true }
        (freshFC true)) false =
      .vdict [(valueKey, .vstr ("None"))] ∧
    (Value.vdict [(valueKey, .vstr ("None"))]) ≠ .vnull := by
  constructor
  · rfl
  · intro h
    exact Value.noConfusion h

/-- C4 (amended): for scalar field variants — whose `_serialize` returns
the stored value — a field never set or set to an empty sentinel
serializes to None when the configured default is also empty, and to the
default value (wrapped with attrs when attrs are enabled, bare otherwise)
when a non-empty default is configured. The claim fails as stated for
`List`, `Date` and `ConvertedDict`, which stringify unset values. -/
theorem C4_amended_scalar_empty_serialize (s : SField)
    (h : isEmptyV s.value = true) :
    serializeF (.scalar s) false =
      (if isEmptyV s.fc.defaultValue then .vnull
       else wrapAttrs (.scalar s) false s.fc.defaultValue) := by
  unfold serializeF serialGlue serialCore
  rw [if_pos h]
  rfl

/-- Witness for C4 (amended): an Integer field never set, with default 5
and attrs enabled, serializes to {"value": 5}; with an empty default it
serializes to None. -/
theorem C4_witness :
    serializeF (.scalar ⟨.tInt, .vnull, { freshFC true with defaultValue := .vint 5 }⟩) false =
      .vdict [(valueKey, .vint 5)] ∧
    serializeF (.scalar { vt := .tInt, value := .vnull, fc := freshFC true })
        false = .vnull := by
  constructor
  · have h1 := C4_amended_scalar_empty_serialize
      ⟨.tInt, .vnull, { freshFC true with defaultValue := .vint 5 }⟩ rfl
    rw [h1]
    rfl
  · have h2 := C4_amended_scalar_empty_serialize ⟨.tInt, .vnull, freshFC true⟩ rfl
    rw [h2]
    rfl


/-- Content of the caller's argument after `Field.set`: the only mutation
`Field.set` performs on its argument is `value.pop("value")` in the
attrs-splitting branch (the popped dict object is then installed, by
reference, as the field's instance attrs). -/
def setArgAfter (fc : FC) (v : Value) : Value :=
  if fc.attrsEnabled then
    match v with
    | .vdict kvs =>
        if containsK kvs valueKey then .vdict (eraseKV kvs valueKey) else v
    | _ => v
  else v

/-- Content of the caller's argument after `Dict.set` on a plain dict
(no "value" wrapper handled here): the stripping loop pops every
undeclared key from the argument in place; `Field.set` then pops a
remaining "value" key, if any. -/
def dictSetArgAfter (props : List (String × Field)) (fc : FC)
    (kvs : List (String × Value)) (incl : Bool) : Value :=
  let kvs1 :=
    if pyBool (.vdict kvs) && !incl then
      kvs.filter (fun p => containsK props p.1)
    else kvs
  setArgAfter fc (.vdict kvs1)

theorem containsK_filter_false {α : Type} (kvs : List (String × α))
    (p : String × α → Bool) (key : String)
    (h : containsK kvs key = false) :
    containsK (kvs.filter p) key = false := by
  simp only [containsK, List.any_eq_false, decide_eq_true_eq] at h ⊢
  intro x hx
  exact h x (List.mem_filter.mp hx).1

/-- C9: `Field.set` with an attrs-enabled field and a dict argument
containing a "value" key mutates the caller's dictionary in place — the
"value" key is removed from it — and the very same (post-mutation) dict
content is what is installed as the field's instance attrs; likewise,
`Dict.set` on a closed composite with `include_undefined=False` removes
the undeclared keys from the caller's dict in place before applying it. -/
theorem C9_inplace_argument_mutation (s : SField) (kvs : List (String × Value))
    (props : List (String × Field)) (fc : FC) (dkvs : List (String × Value))
    (hae : s.fc.attrsEnabled = true) (hv : containsK kvs valueKey = true)
    (hnv : containsK dkvs valueKey = false) (hne : dkvs ≠ []) :
    setArgAfter s.fc (.vdict kvs) = .vdict (eraseKV kvs valueKey) ∧
    (scalarSet s (.vdict kvs)).fc.attrs = eraseKV kvs valueKey ∧
    dictSetArgAfter props fc dkvs false =
      .vdict (dkvs.filter (fun p => containsK props p.1)) := by
  refine ⟨?_, ?_, ?_⟩
  · simp [setArgAfter, hae, hv]
  · simp [scalarSet, fieldSetRaw, hae, hv]
  · have hb : pyBool (.vdict dkvs) = true := by
      simp [pyBool, hne]
    have hcf := containsK_filter_false dkvs (fun p => containsK props p.1)
      valueKey hnv
    simp [dictSetArgAfter, setArgAfter, hb, hcf]

/-- Witness for C9 at concrete inputs. -/
theorem C9_witness :
    setArgAfter (freshFC true) (.vdict [(valueKey, .vint 7), ("pn", .vstr ("n"))]) =
      .vdict [("pn", .vstr ("n"))] ∧
    (scalarSet ⟨.tInt, .vnull, freshFC true⟩
        (.vdict [(valueKey, .vint 7), ("pn", .vstr ("n"))])).fc.attrs =
      [("pn", .vstr ("n"))] ∧
    dictSetArgAfter [("x", .scalar ⟨.tStr, .vnull, freshFC false⟩)] (freshFC true)
        [("a", .vint 1), ("x", .vint 2)] false =
      .vdict [("x", .vint 2)] := by
  have h := C9_inplace_argument_mutation ⟨.tInt, .vnull, freshFC true⟩
    [(valueKey, .vint 7), ("pn", .vstr ("n"))]
    [("x", .scalar ⟨.tStr, .vnull, freshFC false⟩)] (freshFC true)
    [("a", .vint 1), ("x", .vint 2)] rfl rfl rfl (List.cons_ne_nil _ _)
  refine ⟨h.1.trans rfl, h.2.1.trans rfl, h.2.2.trans rfl⟩


theorem str_append_ne_left {a : String} (b : String) (ha : a ≠ "") :
    a ++ b ≠ "" := by
  intro h
  have hl := congrArg String.length h
  simp at hl
  obtain ⟨h1, _⟩ := hl
  apply ha
  cases a with
  | mk data =>
      simp [String.length] at h1
      subst h1
      rfl

theorem scalarCleanCore_validation_msg {vt : VType} {v v' : Value}
    {m : String} (h : scalarCleanCore vt v = (v', some (.validation m))) :
    m ≠ "" := by
  unfold scalarCleanCore at h
  split at h
  · simp at h
  · split at h
    · simp at h
    · simp at h
      rw [← h.2]
      exact str_append_ne_left _ (str_append_ne_left _ (str_append_ne_left _
        (str_append_ne_left _ (str_append_ne_left _ (str_append_ne_left _
          (by decide))))))

theorem requiredMsg_ne : requiredMsg ≠ "" := by decide

theorem scalarCleanFull_err (e : SField) {e' : SField} {err : PyErr}
    (h : scalarCleanFull e = (e', some err)) :
    ∃ m, err = .validation m ∧ m ≠ "" := by
  unfold scalarCleanFull at h
  by_cases hemp : isEmptyV e.value = true
  · rw [if_pos hemp] at h
    by_cases hreq : e.fc.required = true
    · rw [if_pos hreq] at h
      simp at h
      exact ⟨requiredMsg, h.2.symm, requiredMsg_ne⟩
    · rw [if_neg hreq] at h
      simp at h
  · rw [if_neg hemp] at h
    cases hcore : scalarCleanCore e.vt e.value with
    | mk v' oe =>
        rw [hcore] at h
        cases oe with
        | none => simp at h
        | some e2 =>
            have hval : ∃ m, e2 = .validation m := by
              unfold scalarCleanCore at hcore
              split at hcore
              · simp at hcore
              · split at hcore
                · simp at hcore
                · simp at hcore
                  exact ⟨_, hcore.2.symm⟩
            obtain ⟨m, rfl⟩ := hval
            have hmne : m ≠ "" := scalarCleanCore_validation_msg hcore
            cases hl : e.fc.vlevel with
            | strict =>
                rw [hl] at h
                simp at h
                exact ⟨m, h.2.symm, hmne⟩
            | warning =>
                rw [hl] at h
                simp at h
            | disabled =>
                rw [hl] at h
                simp at h


theorem listCleanLoop_err (e : SField) (xs : List Value) {xs' : List Value}
    {err : PyErr} (h : listCleanLoop e xs = (xs', some err)) :
    ∃ m, err = .validation m ∧ m ≠ "" := by
  induction xs generalizing e xs' with
  | nil => simp [listCleanLoop] at h
  | cons x rest ih =>
      cases hc : scalarCleanFull (scalarSet e x) with
      | mk e2 oe =>
          cases oe with
          | none =>
              cases hrest : listCleanLoop e2 rest with
              | mk ys oe2 =>
                  simp only [listCleanLoop, hc, hrest] at h
                  simp at h
                  rw [h.2] at hrest
                  exact ih e2 hrest
          | some e3 =>
              obtain ⟨m, rfl, hmne⟩ := scalarCleanFull_err _ hc
              simp only [listCleanLoop, hc] at h
              simp at h
              refine ⟨_, h.2.symm, ?_⟩
              exact str_append_ne_left _ (str_append_ne_left _
                (str_append_ne_left _ (str_append_ne_left _ (by decide))))

theorem dictCleanProps_abort (props : List (String × Field)) (m : String) :
    (dictCleanProps props).2.2 ≠ some (.validation m) := by
  induction props with
  | nil => simp [dictCleanProps]
  | cons p rest ih =>
      obtain ⟨k, c⟩ := p
      unfold dictCleanProps
      cases hg : cleanGlue c (coreF c) with
      | mk c' oe =>
          cases oe with
          | none => simpa using ih
          | some e3 =>
              cases e3 with
              | validation m2 => simpa using ih
              | initRequired => simp
              | typeError m2 => simp
              | attrError m2 => simp
              | valueError m2 => simp

theorem convCleanCore_nondict_msg (d : Nat) (w : Value)
    {r : Nat × Value} {m : String}
    (hstep : convCleanCore d w =
      (match deconvertDict w with
       | .error e =>
          ((d, w), some (.validation ("Не удалось перобразовать значение поля типа "
             ++ pyTypeName w ++ " к <class \x27dict\x27> (" ++ pyErrStr e ++ ").")))
       | .ok v1 =>
          match v1 with
          | .vdict kvs2 =>
              if (updateMapping d (.vdict kvs2)).2 then
                (((updateMapping d (.vdict kvs2)).1, .vdict kvs2), some .initRequired)
              else (((updateMapping d (.vdict kvs2)).1, .vdict kvs2), none)
          | w1 => ((d, w1), some (.validation "Значение поля не является словарем."))))
    (h : convCleanCore d w = (r, some (.validation m))) : m ≠ "" := by
  rw [hstep] at h
  cases hd : deconvertDict w with
  | error e2 =>
      rw [hd] at h
      simp at h
      rw [← h.2]
      exact str_append_ne_left _ (str_append_ne_left _
        (str_append_ne_left _ (str_append_ne_left _ (by decide))))
  | ok v1 =>
      rw [hd] at h
      cases v1 with
      | vdict kvs =>
          simp at h
          split at h
          · simp at h
          · simp at h
      | vnull => simp at h; rw [← h.2]; decide
      | vint n => simp at h; rw [← h.2]; decide
      | vstr s => simp at h; rw [← h.2]; decide
      | vbool b => simp at h; rw [← h.2]; decide
      | vlist xs => simp at h; rw [← h.2]; decide

theorem convCleanCore_validation_msg {d : Nat} {v : Value}
    {r : Nat × Value} {m : String}
    (h : convCleanCore d v = (r, some (.validation m))) : m ≠ "" := by
  cases v with
  | vdict kvs =>
      simp only [convCleanCore] at h
      split at h
      · simp at h
      · simp at h
  | vnull => exact convCleanCore_nondict_msg d .vnull rfl h
  | vint n => exact convCleanCore_nondict_msg d (.vint n) rfl h
  | vstr s => exact convCleanCore_nondict_msg d (.vstr s) rfl h
  | vbool b => exact convCleanCore_nondict_msg d (.vbool b) rfl h
  | vlist xs => exact convCleanCore_nondict_msg d (.vlist xs) rfl h

theorem coreF_validation_msg {f f' : Field} {m : String}
    (h : coreF f = (f', some (.validation m))) : m ≠ "" := by
  cases f with
  | scalar s =>
      unfold coreF at h
      cases hc : scalarCleanCore s.vt s.value with
      | mk v' oe =>
          rw [hc] at h
          simp at h
          rw [h.2] at hc
          exact scalarCleanCore_validation_msg hc
  | dictF props pdef ia fc =>
      unfold coreF at h
      cases hu : dictCleanProps props with
      | mk props' r =>
          obtain ⟨msg, abort⟩ := r
          rw [hu] at h
          cases abort with
          | some e =>
              simp at h
              have hab := dictCleanProps_abort props m
              rw [hu] at hab
              simp at hab
              exact absurd h.2 hab
          | none =>
              by_cases hmsg : msg = ""
              · simp [hmsg] at h
              · simp [hmsg] at h
                rw [← h.2]
                exact hmsg
  | listF e v fc =>
      unfold coreF at h
      cases v with
      | vlist xs =>
          cases hl : listCleanLoop e xs with
          | mk xs2 oe =>
              simp only [hl] at h
              simp at h
              rw [h.2] at hl
              obtain ⟨m2, hm2, hne⟩ := listCleanLoop_err e xs hl
              cases hm2
              exact hne
      | vnull => simp at h; rw [← h.2]; decide
      | vint n => simp at h; rw [← h.2]; decide
      | vstr s => simp at h; rw [← h.2]; decide
      | vbool b => simp at h; rw [← h.2]; decide
      | vdict kvs => simp at h; rw [← h.2]; decide
  | convDict d v fc =>
      unfold coreF at h
      cases hc : convCleanCore d v with
      | mk r oe =>
          rw [hc] at h
          simp at h
          rw [h.2] at hc
          exact convCleanCore_validation_msg hc


theorem fcOf_withLevel (f : Field) (l : VLevel) :
    (f.withLevel l).fcOf = { f.fcOf with vlevel := l } := by
  cases f <;> rfl

theorem valueOf_withLevel (f : Field) (l : VLevel) :
    valueOf (f.withLevel l) = valueOf f := by
  cases f <;> rfl

theorem coreF_withLevel (f : Field) (l : VLevel) :
    coreF (f.withLevel l) = ((coreF f).1.withLevel l, (coreF f).2) := by
  cases f with
  | scalar s =>
      simp [coreF, Field.withLevel, Field.withFC, Field.fcOf]
  | dictF props pdef ia fc =>
      cases hu : dictCleanProps props with
      | mk props' r =>
          obtain ⟨msg, abort⟩ := r
          cases abort with
          | some e =>
              simp [coreF, Field.withLevel, Field.withFC, Field.fcOf, hu]
          | none =>
              by_cases hmsg : msg = ""
              · simp [coreF, Field.withLevel, Field.withFC, Field.fcOf, hu, hmsg]
              · simp [coreF, Field.withLevel, Field.withFC, Field.fcOf, hu, hmsg]
  | listF e v fc =>
      cases v with
      | vlist xs =>
          cases hl : listCleanLoop e xs with
          | mk xs2 oe =>
              simp [coreF, Field.withLevel, Field.withFC, Field.fcOf, hl]
      | vnull => simp [coreF, Field.withLevel, Field.withFC, Field.fcOf]
      | vint n => simp [coreF, Field.withLevel, Field.withFC, Field.fcOf]
      | vstr s => simp [coreF, Field.withLevel, Field.withFC, Field.fcOf]
      | vbool b => simp [coreF, Field.withLevel, Field.withFC, Field.fcOf]
      | vdict kvs => simp [coreF, Field.withLevel, Field.withFC, Field.fcOf]
  | convDict d v fc =>
      cases hc : convCleanCore d v with
      | mk r oe =>
          simp [coreF, Field.withLevel, Field.withFC, Field.fcOf, hc]

/-- C5: for any field holding a non-empty value whose type-specific
`_clean` fails with a ValidationException of message `m`: under STRICT
`clean` raises exactly that error; under WARNING it returns successfully
and records a `warning` instance attr carrying exactly the message STRICT
would have raised, which is never empty; under DISABLED it returns
successfully leaving the attrs untouched (no `warning` is recorded). -/
theorem C5_validation_level_leniency (f f' : Field) (m : String)
    (hne : isEmptyV (valueOf f) = false)
    (hcore : coreF f = (f', some (.validation m))) :
    cleanF (f.withLevel .strict) = (f'.withLevel .strict, some (.validation m)) ∧
    cleanF (f.withLevel .warning) =
      ((f'.withLevel .warning).withAttrs
        (insertKV ((f'.withLevel .warning).fcOf).attrs warningKey (.vstr m)),
       none) ∧
    m ≠ "" ∧
    cleanF (f.withLevel .disabled) = (f'.withLevel .disabled, none) := by
  have hstep : ∀ l : VLevel,
      coreF (f.withLevel l) = (f'.withLevel l, some (.validation m)) := by
    intro l
    rw [coreF_withLevel, hcore]
  refine ⟨?_, ?_, coreF_validation_msg hcore, ?_⟩
  · unfold cleanF cleanGlue
    rw [valueOf_withLevel]
    rw [if_neg (by rw [hne]; simp)]
    rw [hstep .strict, fcOf_withLevel]
  · unfold cleanF cleanGlue
    rw [valueOf_withLevel]
    rw [if_neg (by rw [hne]; simp)]
    rw [hstep .warning, fcOf_withLevel]
  · unfold cleanF cleanGlue
    rw [valueOf_withLevel]
    rw [if_neg (by rw [hne]; simp)]
    rw [hstep .disabled, fcOf_withLevel]

/-- The STRICT error message of an Integer field holding "abc". -/
def c5msg : String :=
  "Не удалось перобразовать значение поля типа <class \x27str\x27> к <class \x27int\x27> (invalid literal for int() with base 10: \x27abc\x27)."

/-- Witness for C5: an Integer field holding the string "abc". -/
theorem C5_witness :
    cleanF (.scalar ⟨.tInt, .vstr ("abc"), freshFC true⟩) =
      (.scalar ⟨.tInt, .vstr ("abc"), freshFC true⟩, some (.validation c5msg)) ∧
    cleanF (.scalar ⟨.tInt, .vstr ("abc"), { freshFC true with vlevel := .warning }⟩) =
      (.scalar ⟨.tInt, .vstr ("abc"), { freshFC true with vlevel := .warning, attrs := [(warningKey, .vstr c5msg)] }⟩, none) ∧
    c5msg ≠ "" ∧
    cleanF (.scalar ⟨.tInt, .vstr ("abc"), { freshFC true with vlevel := .disabled }⟩) =
      (.scalar ⟨.tInt, .vstr ("abc"), { freshFC true with vlevel := .disabled }⟩, none) := by
  have h := C5_validation_level_leniency
    (.scalar ⟨.tInt, .vstr ("abc"), freshFC true⟩)
    (.scalar ⟨.tInt, .vstr ("abc"), freshFC true⟩) c5msg rfl rfl
  exact ⟨h.1.trans rfl, (h.2.1).trans rfl, h.2.2.1, (h.2.2.2).trans rfl⟩


theorem fieldSetRaw_fc_inv (fc : FC) (y : Value) :
    (fieldSetRaw fc y).2.required = fc.required ∧
    (fieldSetRaw fc y).2.vlevel = fc.vlevel ∧
    (fieldSetRaw fc y).2.attrsEnabled = fc.attrsEnabled ∧
    (fieldSetRaw fc y).2.defaultValue = fc.defaultValue := by
  unfold fieldSetRaw
  by_cases h : fc.attrsEnabled = true
  · rw [if_pos h]
    cases y with
    | vdict kvs =>
        by_cases hc : containsK kvs valueKey = true <;> simp [hc]
    | vnull => simp
    | vint n => simp
    | vstr s => simp
    | vbool b => simp
    | vlist xs => simp
  · simp [h]

theorem fieldSetRaw_fst_congr (fc1 fc2 : FC) (y : Value)
    (h : fc1.attrsEnabled = fc2.attrsEnabled) :
    (fieldSetRaw fc1 y).1 = (fieldSetRaw fc2 y).1 := by
  unfold fieldSetRaw
  rw [h]
  by_cases h2 : fc2.attrsEnabled = true
  · rw [if_pos h2, if_pos h2]
    cases y with
    | vdict kvs =>
        by_cases hc : containsK kvs valueKey = true <;> simp [hc]
    | vnull => simp
    | vint n => simp
    | vstr s => simp
    | vbool b => simp
    | vlist xs => simp
  · simp [h2]

theorem scalarCleanFull_congr (s1 s2 : SField)
    (hvt : s1.vt = s2.vt) (hv : s1.value = s2.value)
    (hreq : s1.fc.required = s2.fc.required)
    (hlvl : s1.fc.vlevel = s2.fc.vlevel) :
    (scalarCleanFull s1).2 = (scalarCleanFull s2).2 ∧
    (scalarCleanFull s1).1.value = (scalarCleanFull s2).1.value := by
  unfold scalarCleanFull
  rw [hv, hvt, hreq, hlvl]
  by_cases hemp : isEmptyV s2.value = true
  · rw [if_pos hemp, if_pos hemp]
    by_cases hreq2 : s2.fc.required = true
    · simp [hreq2, hv]
    · simp [hreq2]
  · rw [if_neg hemp, if_neg hemp]
    cases hc : scalarCleanCore s2.vt s2.value with
    | mk v' oe =>
        cases oe with
        | none => simp
        | some e =>
            cases e with
            | validation m => cases hl : s2.fc.vlevel <;> simp [hl]
            | initRequired => simp
            | typeError m => simp
            | attrError m => simp
            | valueError m => simp

theorem scalarCleanFull_fc_inv (s : SField) :
    (scalarCleanFull s).1.vt = s.vt ∧
    (scalarCleanFull s).1.fc.required = s.fc.required ∧
    (scalarCleanFull s).1.fc.vlevel = s.fc.vlevel ∧
    (scalarCleanFull s).1.fc.attrsEnabled = s.fc.attrsEnabled := by
  unfold scalarCleanFull
  by_cases hemp : isEmptyV s.value = true
  · rw [if_pos hemp]
    by_cases hreq2 : s.fc.required = true
    · simp [hreq2]
    · simp [hreq2]
  · rw [if_neg hemp]
    cases hc : scalarCleanCore s.vt s.value with
    | mk v' oe =>
        cases oe with
        | none => simp
        | some e =>
            cases e with
            | validation m => cases hl : s.fc.vlevel <;> simp [hl]
            | initRequired => simp
            | typeError m => simp
            | attrError m => simp
            | valueError m => simp

theorem scalarSet_fc_inv (s : SField) (y : Value) :
    (scalarSet s y).vt = s.vt ∧
    (scalarSet s y).fc.required = s.fc.required ∧
    (scalarSet s y).fc.vlevel = s.fc.vlevel ∧
    (scalarSet s y).fc.attrsEnabled = s.fc.attrsEnabled := by
  unfold scalarSet
  have h := fieldSetRaw_fc_inv s.fc y
  exact ⟨rfl, h.1, h.2.1, h.2.2.1⟩

theorem scalarSet_value_congr (s1 s2 : SField) (y : Value)
    (h : s1.fc.attrsEnabled = s2.fc.attrsEnabled) :
    (scalarSet s1 y).value = (scalarSet s2 y).value := by
  unfold scalarSet
  simp [fieldSetRaw_fst_congr s1.fc s2.fc y h]


theorem lookup_insertKV_self {α : Type} (kvs : List (String × α)) (k : String)
    (v : α) : lookupKV (insertKV kvs k v) k = some v := by
  induction kvs with
  | nil => simp [insertKV, lookupKV]
  | cons p rest ih =>
      obtain ⟨k1, v1⟩ := p
      by_cases hk : k1 = k
      · simp [insertKV, hk, lookupKV]
      · simp [insertKV, hk, lookupKV, ih]

/-- The element template as stored by the `List` constructor (validation
level forced to STRICT). -/
def listStrictElem (e : SField) : SField :=
  { e with fc := { e.fc with vlevel := .strict } }

/-- The list-level wrapping of an element validation error. -/
def wrapElemMsg (x : Value) (m : String) : String :=
  "Не удалось валидировать элемент " ++ pyStr x ++ " списка: " ++ m ++ "."

theorem listCleanLoop_first_fail (e : SField) (pre post : List Value)
    (x : Value) (m : String)
    (hpre : ∀ y ∈ pre, (scalarCleanFull (scalarSet e y)).2 = none)
    (hx : (scalarCleanFull (scalarSet e x)).2 = some (.validation m)) :
    listCleanLoop e (pre ++ x :: post) =
      ((listCleanLoop e (pre ++ x :: post)).1,
       some (.validation (wrapElemMsg x m))) := by
  induction pre generalizing e with
  | nil =>
      cases hc : scalarCleanFull (scalarSet e x) with
      | mk e2 oe =>
          rw [hc] at hx
          simp at hx
          subst hx
          simp only [List.nil_append, listCleanLoop, hc, wrapElemMsg]
  | cons y rest ih =>
      have hy := hpre y (List.mem_cons_self _ _)
      cases hc : scalarCleanFull (scalarSet e y) with
      | mk e2 oe =>
          rw [hc] at hy
          simp at hy
          subst hy
          have hinv1 := scalarCleanFull_fc_inv (scalarSet e y)
          have hinv2 := scalarSet_fc_inv e y
          rw [hc] at hinv1
          simp at hinv1
          have hvt : e2.vt = e.vt := hinv1.1.trans hinv2.1
          have hreq : e2.fc.required = e.fc.required := hinv1.2.1.trans hinv2.2.1
          have hlvl : e2.fc.vlevel = e.fc.vlevel := hinv1.2.2.1.trans hinv2.2.2.1
          have hae : e2.fc.attrsEnabled = e.fc.attrsEnabled :=
            hinv1.2.2.2.trans hinv2.2.2.2
          have htransfer : ∀ z : Value,
              (scalarCleanFull (scalarSet e2 z)).2 =
              (scalarCleanFull (scalarSet e z)).2 := by
            intro z
            have hset1 := scalarSet_fc_inv e2 z
            have hset2 := scalarSet_fc_inv e z
            refine (scalarCleanFull_congr (scalarSet e2 z) (scalarSet e z)
              ?_ ?_ ?_ ?_).1
            · rw [hset1.1, hset2.1, hvt]
            · exact scalarSet_value_congr e2 e z hae
            · rw [hset1.2.1, hset2.2.1, hreq]
            · rw [hset1.2.2.1, hset2.2.2.1, hlvl]
          have hpre' : ∀ z ∈ rest, (scalarCleanFull (scalarSet e2 z)).2 = none := by
            intro z hz
            rw [htransfer z]
            exact hpre z (List.mem_cons_of_mem _ hz)
          have hx' : (scalarCleanFull (scalarSet e2 x)).2 =
              some (.validation m) := by
            rw [htransfer x]
            exact hx
          have hrec := ih e2 hpre' hx'
          simp only [List.cons_append, listCleanLoop, hc, List.append_eq]
          rw [hrec]

/-- C3 (corrected): for a `List` whose elements fail validation, with the
first failure at element `x` (message `m`): under STRICT, `clean` raises
a ValidationError carrying the FIRST failing element's error; under
WARNING, `clean` returns successfully and the list's recorded `warning`
attribute holds that same first element-level error — not the last one,
since `List._clean` aborts at the first failing element and the elements
after it are never validated. -/
theorem C3_list_first_failure (e : SField) (fc : FC) (pre post : List Value)
    (x : Value) (m : String)
    (hpre : ∀ y ∈ pre,
      (scalarCleanFull (scalarSet (listStrictElem e) y)).2 = none)
    (hx : (scalarCleanFull (scalarSet (listStrictElem e) x)).2 =
      some (.validation m)) :
    cleanF (.listF (listStrictElem e) (.vlist (pre ++ x :: post))
        { fc with vlevel := .strict }) =
      (.listF (listStrictElem e)
        (.vlist (listCleanLoop (listStrictElem e) (pre ++ x :: post)).1)
        { fc with vlevel := .strict },
       some (.validation (wrapElemMsg x m))) ∧
    cleanF (.listF (listStrictElem e) (.vlist (pre ++ x :: post))
        { fc with vlevel := .warning }) =
      ((Field.listF (listStrictElem e)
        (.vlist (listCleanLoop (listStrictElem e) (pre ++ x :: post)).1)
        { fc with vlevel := .warning }).withAttrs
          (insertKV fc.attrs warningKey (.vstr (wrapElemMsg x m))), none) ∧
    lookupKV (insertKV fc.attrs warningKey (.vstr (wrapElemMsg x m)))
        warningKey = some (.vstr (wrapElemMsg x m)) := by
  have hloop := listCleanLoop_first_fail (listStrictElem e) pre post x m hpre hx
  have hne : isEmptyV (.vlist (pre ++ x :: post)) = false := by
    cases pre <;> rfl
  refine ⟨?_, ?_, lookup_insertKV_self _ _ _⟩
  · unfold cleanF cleanGlue
    rw [if_neg (by simp [valueOf, hne])]
    simp only [coreF]
    rw [hloop]
    rfl
  · unfold cleanF cleanGlue
    rw [if_neg (by simp [valueOf, hne])]
    simp only [coreF]
    rw [hloop]
    rfl


/-- The message `int(s)` failure produces inside `Field._clean` for a
string that is not a valid integer literal. -/
def c3innerMsg (s : String) : String :=
  "Не удалось перобразовать значение поля типа <class \x27str\x27> к <class \x27int\x27> (invalid literal for int() with base 10: \x27" ++ s ++ "\x27)."

/-- The concrete `List(Integer, validation_level=WARNING)` holding the two
invalid elements "x" and "y". -/
def c3list : Field :=
  .listF (listStrictElem ⟨.tInt, .vnull, freshFC true⟩)
    (.vlist [.vstr ("x"), .vstr ("y")])
    { freshFC true with vlevel := .warning }

/-- C3 counterexample: a WARNING-level `List(Integer)` holding two invalid
elements "x" and "y" cleans successfully, but the recorded `warning`
attribute is the FIRST failing element\x27s wrapped error (about "x"), which
differs from the last element\x27s wrapped error (about "y") — the claim
that the last element-level warning is kept is false. -/
theorem C3_counterexample :
    (cleanF c3list).2 = none ∧
    lookupKV ((cleanF c3list).1.fcOf).attrs warningKey =
      some (.vstr (wrapElemMsg (.vstr ("x")) (c3innerMsg "x"))) ∧
    wrapElemMsg (.vstr ("x")) (c3innerMsg "x") ≠
      wrapElemMsg (.vstr ("y")) (c3innerMsg "y") := by
  refine ⟨rfl, rfl, by decide⟩


theorem C3_witness :
    (scalarCleanFull (scalarSet (listStrictElem ⟨.tInt, .vnull, freshFC true⟩)
        (.vstr ("z")))).2 = some (.validation (c3innerMsg "z")) ∧
    cleanF (.listF (listStrictElem ⟨.tInt, .vnull, freshFC true⟩)
        (.vlist ([Value.vint 1] ++ .vstr ("z") :: [.vstr ("w")]))
        { freshFC true with vlevel := .strict }) =
      (.listF (listStrictElem ⟨.tInt, .vnull, freshFC true⟩)
        (.vlist (listCleanLoop (listStrictElem ⟨.tInt, .vnull, freshFC true⟩)
          ([Value.vint 1] ++ .vstr ("z") :: [.vstr ("w")])).1)
        { freshFC true with vlevel := .strict },
       some (.validation (wrapElemMsg (.vstr ("z")) (c3innerMsg "z")))) :=
  ⟨rfl, (C3_list_first_failure ⟨.tInt, .vnull, freshFC true⟩ (freshFC true)
      [Value.vint 1] [.vstr ("w")] (.vstr ("z")) (c3innerMsg "z")
      (by intro y hy; simp at hy; subst hy; rfl) rfl).1⟩


/-- C1 counterexample: a fresh `Text` field set to the empty string cleans
successfully (the empty value is normalised to None), but
deserialize(serialize()) then yields the string "None" — `str(None)`
produced by `Text._deserialize` — which is not equal to the cleaned
value None: the round-trip fails. -/
theorem C1_counterexample :
    cleanF (.scalar (scalarSet (freshText true) (.vstr ("")))) =
      (.scalar ⟨.tStr, .vnull, freshFC true⟩, none) ∧
    deserializeVal (.scalar ⟨.tStr, .vnull, freshFC true⟩)
      (serializeF (.scalar ⟨.tStr, .vnull, freshFC true⟩) false) =
      .ok (.vstr ("None")) ∧
    pyEq (.vstr ("None")) (valueOf (.scalar ⟨.tStr, .vnull, freshFC true⟩)) = false := by
  refine ⟨rfl, ?_, rfl⟩
  simp only [deserializeVal]
  rw [show serializeF (.scalar ⟨.tStr, .vnull, freshFC true⟩) false = Value.vnull from rfl]
  rw [show unwrapD ((Field.scalar ⟨.tStr, .vnull, freshFC true⟩).fcOf) Value.vnull = Value.vnull from rfl]
  simp [deserCore, coerceV, pyStr]

theorem lookup_insertKV_ne {α : Type} (kvs : List (String × α)) (k1 k : String)
    (v : α) (h : k1 ≠ k) : lookupKV (insertKV kvs k1 v) k = lookupKV kvs k := by
  induction kvs with
  | nil => simp [insertKV, lookupKV, h]
  | cons p rest ih =>
      obtain ⟨k2, v2⟩ := p
      by_cases h2 : k2 = k1
      · subst h2
        simp [insertKV, lookupKV, h]
      · simp [insertKV, h2, lookupKV, ih]

theorem lookup_mergeKV_free {α : Type} (a b : List (String × α)) (k : String)
    (h : containsK b k = false) :
    lookupKV (mergeKV a b) k = lookupKV a k := by
  induction b generalizing a with
  | nil => rfl
  | cons p rest ih =>
      obtain ⟨k2, v2⟩ := p
      simp only [containsK, List.any_cons, Bool.or_eq_false_iff,
        decide_eq_false_iff_not] at h
      rw [show mergeKV a ((k2, v2) :: rest) = mergeKV (insertKV a k2 v2) rest from rfl]
      rw [ih (insertKV a k2 v2) h.2]
      exact lookup_insertKV_ne a k2 k v2 h.1

theorem coerceV_ok_matches {vt : VType} {v r : Value}
    (h : coerceV vt v = .ok r) (hvt : vt ≠ .obj) :
    typeMatches vt r = true := by
  cases vt with
  | obj => exact absurd rfl hvt
  | tStr =>
      simp [coerceV] at h
      subst h
      rfl
  | tBool =>
      simp [coerceV] at h
      subst h
      rfl
  | tInt =>
      cases v with
      | vint n => simp [coerceV] at h; subst h; rfl
      | vbool b => simp [coerceV] at h; subst h; rfl
      | vstr s =>
          simp only [coerceV] at h
          cases hp : pyIntOfStr s with
          | some n => rw [hp] at h; simp at h; subst h; rfl
          | none => rw [hp] at h; simp at h
      | vnull => simp [coerceV] at h
      | vlist xs => simp [coerceV] at h
      | vdict kvs => simp [coerceV] at h

theorem typeMatches_coerce_ok (vt : VType) (v : Value)
    (hm : typeMatches vt v = true) (hvt : vt ≠ .obj) :
    ∃ r, coerceV vt v = .ok r ∧ pyEq r v = true := by
  cases vt with
  | obj => exact absurd rfl hvt
  | tInt =>
      cases v with
      | vint n => exact ⟨.vint n, rfl, by simp [pyEq]⟩
      | vbool b => exact ⟨.vint (if b then 1 else 0), rfl, by cases b <;> rfl⟩
      | vnull => exact absurd hm (by simp [typeMatches])
      | vstr s => exact absurd hm (by simp [typeMatches])
      | vlist xs => exact absurd hm (by simp [typeMatches])
      | vdict kvs => exact absurd hm (by simp [typeMatches])
  | tStr =>
      cases v with
      | vstr s => exact ⟨.vstr s, rfl, by simp [pyEq]⟩
      | vnull => exact absurd hm (by simp [typeMatches])
      | vint n => exact absurd hm (by simp [typeMatches])
      | vbool b => exact absurd hm (by simp [typeMatches])
      | vlist xs => exact absurd hm (by simp [typeMatches])
      | vdict kvs => exact absurd hm (by simp [typeMatches])
  | tBool =>
      cases v with
      | vbool b => exact ⟨.vbool b, rfl, by cases b <;> rfl⟩
      | vnull => exact absurd hm (by simp [typeMatches])
      | vint n => exact absurd hm (by simp [typeMatches])
      | vstr s => exact absurd hm (by simp [typeMatches])
      | vlist xs => exact absurd hm (by simp [typeMatches])
      | vdict kvs => exact absurd hm (by simp [typeMatches])

theorem scalarCleanCore_none_matches {vt : VType} {v v' : Value}
    (h : scalarCleanCore vt v = (v', none)) (hvt : vt ≠ .obj) :
    typeMatches vt v' = true := by
  unfold scalarCleanCore at h
  by_cases ht : typeMatches vt v = true
  · rw [if_pos ht] at h
    simp at h
    rw [← h]
    exact ht
  · rw [if_neg ht] at h
    cases hc : coerceV vt v with
    | ok d =>
        rw [hc] at h
        simp at h
        rw [← h]
        exact coerceV_ok_matches hc hvt
    | error m =>
        rw [hc] at h
        simp at h


theorem unwrapD_wrapAttrs (f : Field) (v : Value)
    (hattr : containsK ((f.fcOf).attrs) valueKey = false) :
    unwrapD (f.fcOf) (wrapAttrs f false v) = v := by
  unfold wrapAttrs unwrapD
  by_cases hae : (f.fcOf).attrsEnabled = true
  · rw [if_pos hae, if_pos hae]
    dsimp only
    rw [lookup_mergeKV_free _ _ _ hattr]
    rfl
  · rw [if_neg hae, if_neg hae]


/-- C1 (corrected): for a typed scalar Field variant (value_type other
than the stringifying base object field) under STRICT validation, if
`set(x)` followed by `clean()` succeeds and the cleaned value is
non-empty and the instance attrs do not shadow the "value" key, then
`deserialize(serialize())` returns a value Python-equal to the cleaned
stored value. The original unrestricted claim is false: empty cleaned
values serialize to None and deserialize to the string "None" (see the
counterexample), WARNING-level fields can clean successfully while
keeping an uncoercible value, and the base object field stringifies on
deserialization. -/
theorem C1_scalar_roundtrip (s : SField) (x : Value) (f2 : Field)
    (hvt : s.vt ≠ .obj)
    (hlvl : s.fc.vlevel = .strict)
    (hclean : cleanF (.scalar (scalarSet s x)) = (f2, none))
    (hattr : containsK ((f2.fcOf).attrs) valueKey = false)
    (hne : isEmptyV (valueOf f2) = false) :
    (deserializeVal f2 (serializeF f2 false)).map
      (fun r => pyEq r (valueOf f2)) = Except.ok true := by
  have hs1vt : (scalarSet s x).vt = s.vt := (scalarSet_fc_inv s x).1
  have hs1lvl : (scalarSet s x).fc.vlevel = .strict :=
    ((scalarSet_fc_inv s x).2.2.1).trans hlvl
  unfold cleanF cleanGlue at hclean
  by_cases he : isEmptyV (valueOf (.scalar (scalarSet s x))) = true
  · rw [if_pos he] at hclean
    by_cases hr : (Field.fcOf (.scalar (scalarSet s x))).required = true
    · rw [if_pos hr] at hclean
      simp at hclean
    · rw [if_neg hr] at hclean
      simp at hclean
      rw [← hclean] at hne
      simp [assignNullV, valueOf, isEmptyV] at hne
  · rw [if_neg he] at hclean
    simp only [coreF] at hclean
    cases hc : scalarCleanCore (scalarSet s x).vt (scalarSet s x).value with
    | mk v' oe =>
        rw [hc] at hclean
        cases oe with
        | none =>
            simp at hclean
            have hf2 : f2 = .scalar { scalarSet s x with value := v' } :=
              hclean.symm
            subst hf2
            have hmatch : typeMatches s.vt v' = true :=
              scalarCleanCore_none_matches (hs1vt ▸ hc) hvt
            have hne2 : isEmptyV v' = false := hne
            have hser : serializeF (.scalar { scalarSet s x with value := v' }) false =
                wrapAttrs (.scalar { scalarSet s x with value := v' }) false v' := by
              unfold serializeF serialGlue
              rw [show serialCore (Field.scalar { scalarSet s x with value := v' }) = v' from rfl]
              rw [if_neg (by simp [hne2])]
            rw [hser]
            unfold deserializeVal
            rw [unwrapD_wrapAttrs _ _ hattr]
            obtain ⟨r, hcoe, heq⟩ := typeMatches_coerce_ok s.vt v' hmatch hvt
            have hdc : deserCore (.scalar { scalarSet s x with value := v' }) v' =
                .ok r := by
              simp only [deserCore]
              rw [if_neg (by rw [show ({ scalarSet s x with value := v' } : SField).vt = s.vt from hs1vt]; exact hvt)]
              rw [show ({ scalarSet s x with value := v' } : SField).vt = s.vt from hs1vt]
              rw [hcoe]
            rw [hdc]
            rw [show valueOf (Field.scalar { scalarSet s x with value := v' }) = v' from rfl]
            simp [Except.map, heq]
        | some e =>
            cases e with
            | validation m =>
                rw [show Field.fcOf (Field.scalar (scalarSet s x)) = (scalarSet s x).fc from rfl] at hclean
                rw [hs1lvl] at hclean
                simp at hclean
            | initRequired => simp at hclean
            | typeError m => simp at hclean
            | attrError m => simp at hclean
            | valueError m => simp at hclean


theorem C1_witness :
    cleanF (.scalar (scalarSet ⟨.tInt, .vnull, freshFC true⟩ (.vstr ("123")))) =
      (.scalar ⟨.tInt, .vint 123, freshFC true⟩, none) ∧
    (deserializeVal (.scalar ⟨.tInt, .vint 123, freshFC true⟩)
      (serializeF (.scalar ⟨.tInt, .vint 123, freshFC true⟩) false)).map
      (fun r => pyEq r (valueOf (.scalar ⟨.tInt, .vint 123, freshFC true⟩))) =
      Except.ok true :=
  ⟨rfl, C1_scalar_roundtrip ⟨.tInt, .vnull, freshFC true⟩ (.vstr ("123"))
      (.scalar ⟨.tInt, .vint 123, freshFC true⟩)
      (fun h => nomatch h) rfl rfl rfl rfl⟩


/-- The declared property list of a composite field. -/
def propsOf : Field → List (String × Field)
  | .dictF props _ _ _ => props
  | _ => []

theorem containsK_eq_any_keys {α : Type} (a : List (String × α)) (k : String) :
    containsK a k = (keysOf a).any (fun s => s = k) := by
  induction a with
  | nil => rfl
  | cons p rest ih => simp [containsK, keysOf] at ih ⊢; rw [ih]

theorem containsK_congr_keys {α β : Type} (a : List (String × α))
    (b : List (String × β)) (h : keysOf a = keysOf b) (k : String) :
    containsK a k = containsK b k := by
  rw [containsK_eq_any_keys, containsK_eq_any_keys, h]

theorem containsK_some {α : Type} (kvs : List (String × α)) (k : String)
    (h : containsK kvs k = true) : ∃ v, lookupKV kvs k = some v := by
  induction kvs with
  | nil => simp [containsK] at h
  | cons p rest ih =>
      obtain ⟨k1, v1⟩ := p
      by_cases h1 : k1 = k
      · exact ⟨v1, by simp [lookupKV, h1]⟩
      · simp [containsK, h1] at h
        obtain ⟨v, hv⟩ := ih (by simpa [containsK] using h)
        exact ⟨v, by simp [lookupKV, h1, hv]⟩

theorem containsK_insertKV_self {α : Type} (kvs : List (String × α))
    (k : String) (v : α) : containsK (insertKV kvs k v) k = true := by
  induction kvs with
  | nil => simp [insertKV, containsK]
  | cons p rest ih =>
      obtain ⟨k1, v1⟩ := p
      by_cases h1 : k1 = k
      · simp [insertKV, h1, containsK]
      · rw [show insertKV ((k1, v1) :: rest) k v = (k1, v1) :: insertKV rest k v from by simp [insertKV, h1]]
        show ((k1, v1) :: insertKV rest k v).any (fun p => p.1 = k) = true
        rw [List.any_cons]
        exact Bool.or_eq_true_iff.mpr (Or.inr ih)

theorem setDeclared_keys (props : List (String × Field))
    (kvs : List (String × Value)) :
    keysOf (setDeclared props kvs).1 = keysOf props := by
  induction props with
  | nil => unfold setDeclared; rfl
  | cons p rest ih =>
      obtain ⟨k, c⟩ := p
      unfold setDeclared
      cases hc : setF c ((lookupKV kvs k).getD .vnull) false with
      | mk c' oe =>
          cases oe with
          | some e => simp [keysOf]
          | none => simp [keysOf]; simpa [keysOf] using ih

theorem setUndeclared_all (props : List (String × Field)) (ia : Bool)
    (kvs : List (String × Value))
    (h : ∀ p ∈ kvs, containsK props p.1 = true) :
    setUndeclared props ia kvs = (props, none) := by
  induction kvs with
  | nil => unfold setUndeclared; rfl
  | cons p rest ih =>
      obtain ⟨k, sv⟩ := p
      unfold setUndeclared
      rw [if_pos (h (k, sv) (List.mem_cons_self _ _))]
      exact ih (fun q hq => h q (List.mem_cons_of_mem _ hq))

theorem setEntries_keys (props : List (String × Field)) (ia : Bool)
    (kvs : List (String × Value))
    (h : ∀ p ∈ kvs, containsK props p.1 = true) :
    keysOf (setEntries props ia kvs).1 = keysOf props := by
  unfold setEntries
  cases hd : setDeclared props kvs with
  | mk props1 oe =>
      have hk : keysOf props1 = keysOf props := by
        have := setDeclared_keys props kvs
        rw [hd] at this
        exact this
      cases oe with
      | some e => exact hk
      | none =>
          show keysOf (setUndeclared props1 ia kvs).1 = keysOf props
          rw [setUndeclared_all props1 ia kvs
            (fun p hp => (containsK_congr_keys props1 props hk p.1).trans (h p hp))]
          exact hk


theorem strip_set_declared (props : List (String × Field)) (fc : FC)
    (kvs kvs2 kvs3 : List (String × Value))
    (hs : stripUndeclared props fc.attrsEnabled kvs false = .ok kvs2)
    (hv : (fieldSetRaw fc (.vdict kvs2)).1 = .vdict kvs3) :
    ∀ p ∈ kvs3, containsK props p.1 = true := by
  unfold stripUndeclared at hs
  by_cases h1 : (pyBool (.vdict kvs) && !false) = true
  · rw [if_pos h1] at hs
    by_cases h2 : (fc.attrsEnabled && containsK kvs valueKey) = true
    · rw [if_pos h2] at hs
      cases hl : lookupKV kvs valueKey with
      | none =>
          obtain ⟨w, hw⟩ := containsK_some kvs valueKey (Bool.and_elim_right h2)
          rw [hw] at hl
          exact absurd hl (by simp)
      | some w =>
          rw [hl] at hs
          cases w with
          | vdict inner =>
              simp at hs
              subst hs
              unfold fieldSetRaw at hv
              rw [if_pos (Bool.and_elim_left h2)] at hv
              dsimp only at hv
              rw [if_pos (containsK_insertKV_self kvs valueKey _)] at hv
              rw [lookup_insertKV_self kvs valueKey] at hv
              simp at hv
              subst hv
              intro p hp
              exact (List.mem_filter.mp hp).2
          | vnull => simp at hs
          | vint n => simp at hs
          | vstr s => simp at hs
          | vbool b => simp at hs
          | vlist xs => simp at hs
    · rw [if_neg h2] at hs
      simp at hs
      subst hs
      have hnc : containsK (kvs.filter (fun p => containsK props p.1)) valueKey = false ∨
          fc.attrsEnabled = false := by
        by_cases hae : fc.attrsEnabled = true
        · left
          apply containsK_filter_false
          cases hck : containsK kvs valueKey with
          | false => rfl
          | true => exact absurd (by rw [hae, hck]; rfl) h2
        · right
          exact Bool.eq_false_iff.mpr hae
      unfold fieldSetRaw at hv
      cases hnc with
      | inl hnc =>
          by_cases hae : fc.attrsEnabled = true
          · rw [if_pos hae] at hv
            dsimp only at hv
            rw [if_neg (by rw [hnc]; exact Bool.false_ne_true)] at hv
            simp at hv
            subst hv
            intro p hp
            exact (List.mem_filter.mp hp).2
          · rw [if_neg hae] at hv
            simp at hv
            subst hv
            intro p hp
            exact (List.mem_filter.mp hp).2
      | inr hae =>
          rw [if_neg (by rw [hae]; exact Bool.false_ne_true)] at hv
          simp at hv
          subst hv
          intro p hp
          exact (List.mem_filter.mp hp).2
  · rw [if_neg h1] at hs
    simp at hs
    subst hs
    have hk : kvs = [] := by
      cases kvs with
      | nil => rfl
      | cons q rest =>
          exact absurd (show (pyBool (Value.vdict (q :: rest)) && !false) = true
            by simp [pyBool]) h1
    subst hk
    have hraw : (fieldSetRaw fc (Value.vdict [])).1 = Value.vdict [] := by
      unfold fieldSetRaw
      by_cases hae : fc.attrsEnabled = true
      · simp [hae, containsK]
      · simp [hae]
    rw [hraw] at hv
    simp at hv
    subst hv
    intro p hp
    exact absurd hp (List.not_mem_nil p)


theorem setDictKvs_keys (props : List (String × Field)) (pdef ia : Bool)
    (fc : FC) (kvs : List (String × Value)) :
    keysOf (propsOf (setDictKvs props pdef ia fc kvs false).1) = keysOf props := by
  unfold setDictKvs
  split
  · rfl
  next kvs2 hs =>
    dsimp only
    cases hv : (fieldSetRaw fc (Value.vdict kvs2)).1 with
    | vdict kvs3 =>
        dsimp only
        exact setEntries_keys props ia kvs3 (strip_set_declared props fc kvs kvs2 kvs3 hs hv)
    | vnull =>
        dsimp only
        rw [if_neg (by decide)]
        exact setEntries_keys props ia [] (fun p hp => absurd hp (List.not_mem_nil p))
    | vint n =>
        dsimp only
        by_cases hb : pyBool (Value.vint n) = true
        · rw [if_pos hb]
          rfl
        · rw [if_neg hb]
          exact setEntries_keys props ia [] (fun p hp => absurd hp (List.not_mem_nil p))
    | vstr s =>
        dsimp only
        by_cases hb : pyBool (Value.vstr s) = true
        · rw [if_pos hb]
          rfl
        · rw [if_neg hb]
          exact setEntries_keys props ia [] (fun p hp => absurd hp (List.not_mem_nil p))
    | vbool b =>
        dsimp only
        by_cases hb : pyBool (Value.vbool b) = true
        · rw [if_pos hb]
          rfl
        · rw [if_neg hb]
          exact setEntries_keys props ia [] (fun p hp => absurd hp (List.not_mem_nil p))
    | vlist xs =>
        dsimp only
        by_cases hb : pyBool (Value.vlist xs) = true
        · rw [if_pos hb]
          rfl
        · rw [if_neg hb]
          exact setEntries_keys props ia [] (fun p hp => absurd hp (List.not_mem_nil p))

theorem setF_dict_closed_keys (props : List (String × Field)) (ia : Bool)
    (fc : FC) (v : Value) :
    keysOf (propsOf ((setF (.dictF props true ia fc) v false)).1) = keysOf props := by
  cases v with
  | vdict kvs =>
      simp only [setF]
      exact setDictKvs_keys props true ia fc kvs
  | vnull =>
      simp only [setF]
      exact setEntries_keys props ia [] (fun p hp => absurd hp (List.not_mem_nil p))
  | vint n =>
      simp only [setF]
      by_cases hb : pyBool (.vint n) = true
      · rw [if_pos hb]
        rfl
      · rw [if_neg hb]
        exact setEntries_keys props ia [] (fun p hp => absurd hp (List.not_mem_nil p))
  | vstr s =>
      simp only [setF]
      by_cases hb : pyBool (.vstr s) = true
      · rw [if_pos hb]
        rfl
      · rw [if_neg hb]
        exact setEntries_keys props ia [] (fun p hp => absurd hp (List.not_mem_nil p))
  | vbool b =>
      simp only [setF]
      by_cases hb : pyBool (.vbool b) = true
      · rw [if_pos hb]
        rfl
      · rw [if_neg hb]
        exact setEntries_keys props ia [] (fun p hp => absurd hp (List.not_mem_nil p))
  | vlist xs =>
      simp only [setF]
      by_cases hb : pyBool (.vlist xs) = true
      · rw [if_pos hb]
        rfl
      · rw [if_neg hb]
        exact setEntries_keys props ia [] (fun p hp => absurd hp (List.not_mem_nil p))


/-- C7: `Dict.set` without `include_undefined` never admits a key outside
a closed composite's declared property set (the declared names are
unchanged by any `set`), so setting `{"a": 1}` on a closed composite with
a single declared property "x" leaves the composite's computed value
`{}`; with `include_undefined=True` (or on a composite constructed with
no declared properties) the unknown key is admitted — auto-created as a
text-typed sub-field holding the value, or as a nested composite for
dict-shaped values — and the computed value becomes the input dict. -/
theorem C7_undefined_key_admission :
    (∀ (props : List (String × Field)) (ia : Bool) (fc : FC) (v : Value),
      keysOf (propsOf ((setF (.dictF props true ia fc) v false)).1) = keysOf props) ∧
    valueOf ((setF (.dictF [("x", .scalar (freshText false))] true false (freshFC true))
        (.vdict [("a", .vint 1)]) false).1) = .vdict [] ∧
    lookupKV (propsOf ((setF (.dictF [("x", .scalar (freshText false))] true false
        (freshFC true)) (.vdict [("a", .vint 1)]) true).1)) ("a") =
      some (.scalar ⟨.tStr, .vint 1, freshFC false⟩) ∧
    valueOf ((setF (.dictF [("x", .scalar (freshText false))] true false (freshFC true))
        (.vdict [("a", .vint 1)]) true).1) = .vdict [("a", .vint 1)] ∧
    valueOf ((setF (.dictF [] false false (freshFC true))
        (.vdict [("a", .vint 1)]) false).1) = .vdict [("a", .vint 1)] ∧
    valueOf ((setF (.dictF [("x", .scalar (freshText false))] true false (freshFC true))
        (.vdict [("a", .vdict [("b", .vint 2)])]) true).1) =
      .vdict [("a", .vdict [("b", .vint 2)])] := by
  refine ⟨setF_dict_closed_keys, ?_, ?_, ?_, ?_, ?_⟩ <;>
    simp +decide [setF, setDictKvs, stripUndeclared, setEntries, setDeclared,
      setUndeclared, addUndef, fieldSetRaw, scalarSet, freshFC, freshText,
      serialGlue, serialCore, wrapAttrs, dictValueEntries, valueOf, isEmptyV,
      mergeKV, insertKV, containsK, valueKey, lookupKV, eraseKV, Field.fcOf,
      pyBool, propsOf, keysOf]


/-- The message segment `Dict._clean` appends for one property: the
wrapped child error when the child raises a ValidationException, nothing
otherwise. -/
def childMsg (k : String) (c : Field) : String :=
  match (cleanGlue c (coreF c)).2 with
  | some (.validation m) =>
      "Поле " ++ k ++ " не было успешно валидировано: " ++ m ++ ". "
  | _ => ""

/-- The full message `Dict._clean` accumulates over the property list. -/
def dictMsgs : List (String × Field) → String
  | [] => ""
  | (k, c) :: rest => childMsg k c ++ dictMsgs rest

/-- `sub` occurs contiguously inside `s`. -/
def containsSub (s sub : String) : Prop := ∃ a b, s = a ++ sub ++ b

theorem dictMsgs_append (a b : List (String × Field)) :
    dictMsgs (a ++ b) = dictMsgs a ++ dictMsgs b := by
  induction a with
  | nil => rfl
  | cons p rest ih =>
      obtain ⟨k, c⟩ := p
      show childMsg k c ++ dictMsgs (rest ++ b) =
        (childMsg k c ++ dictMsgs rest) ++ dictMsgs b
      rw [ih, String.append_assoc]

theorem dictMsgs_decompose (pre post : List (String × Field)) (k : String)
    (c : Field) :
    dictMsgs (pre ++ (k, c) :: post) =
      dictMsgs pre ++ childMsg k c ++ dictMsgs post := by
  rw [dictMsgs_append]
  rw [show dictMsgs ((k, c) :: post) = childMsg k c ++ dictMsgs post from rfl]
  rw [String.append_assoc]

theorem dictCleanProps_collect (props : List (String × Field))
    (hno : ∀ p ∈ props, ∀ e,
      (cleanGlue p.2 (coreF p.2)).2 = some e → ∃ m, e = .validation m) :
    dictCleanProps props =
      (props.map (fun p => (p.1, (cleanGlue p.2 (coreF p.2)).1)),
       (dictMsgs props, none)) := by
  induction props with
  | nil => rfl
  | cons p rest ih =>
      obtain ⟨k, c⟩ := p
      have ih2 := ih (fun q hq => hno q (List.mem_cons_of_mem _ hq))
      unfold dictCleanProps
      cases hc : cleanGlue c (coreF c) with
      | mk c' oe =>
          cases oe with
          | none =>
              dsimp only
              rw [ih2]
              simp [hc, dictMsgs, childMsg]
          | some e =>
              obtain ⟨m, hm⟩ := hno (k, c) (List.mem_cons_self _ _) e
                (by dsimp only; rw [hc])
              subst hm
              dsimp only
              rw [ih2]
              simp [hc, dictMsgs, childMsg]


theorem childMsg_len_pos (k : String) (c : Field) (m : String)
    (h : (cleanGlue c (coreF c)).2 = some (.validation m)) :
    1 ≤ (childMsg k c).length := by
  have hcm : childMsg k c =
      "Поле " ++ k ++ " не было успешно валидировано: " ++ m ++ ". " := by
    simp [childMsg, h]
  rw [hcm, String.length_append]
  have h2 : (". ").length = 2 := by decide
  omega

theorem dictMsgs_ne_of_fail (pre post : List (String × Field)) (k : String)
    (c : Field) (m : String)
    (h : (cleanGlue c (coreF c)).2 = some (.validation m)) :
    ¬ dictMsgs (pre ++ (k, c) :: post) = "" := by
  intro hemp
  have hd := dictMsgs_decompose pre post k c
  rw [hemp] at hd
  have hlen := congrArg String.length hd
  rw [String.length_append, String.length_append] at hlen
  have h1 := childMsg_len_pos k c m h
  have h0 : ("" : String).length = 0 := by decide
  omega


/-- C6: for a `Dict` composite under STRICT whose computed value is
non-empty, with (at least) two children that fail validation and no child
raising a non-validation exception: `clean` cleans every child (the
result holds each child\x27s cleaned state — it does not stop at the
first failure) and raises a single ValidationError whose accumulated
message contains, for every failing child, the segment naming that child
together with its error message. -/
theorem C6_composite_error_aggregation
    (pre mid post : List (String × Field)) (k1 k2 : String) (c1 c2 : Field)
    (m1 m2 : String) (pdef ia : Bool) (fc : FC)
    (hlvl : fc.vlevel = .strict)
    (h1 : (cleanGlue c1 (coreF c1)).2 = some (.validation m1))
    (h2 : (cleanGlue c2 (coreF c2)).2 = some (.validation m2))
    (hno : ∀ p ∈ pre ++ (k1, c1) :: mid ++ (k2, c2) :: post, ∀ e,
      (cleanGlue p.2 (coreF p.2)).2 = some e → ∃ m, e = .validation m)
    (hne : isEmptyV (valueOf (.dictF (pre ++ (k1, c1) :: mid ++ (k2, c2) :: post)
      pdef ia fc)) = false) :
    cleanF (.dictF (pre ++ (k1, c1) :: mid ++ (k2, c2) :: post) pdef ia fc) =
      (.dictF ((pre ++ (k1, c1) :: mid ++ (k2, c2) :: post).map
          (fun p => (p.1, (cleanGlue p.2 (coreF p.2)).1))) pdef ia fc,
       some (.validation (dictMsgs (pre ++ (k1, c1) :: mid ++ (k2, c2) :: post)))) ∧
    containsSub (dictMsgs (pre ++ (k1, c1) :: mid ++ (k2, c2) :: post))
      ("Поле " ++ k1 ++ " не было успешно валидировано: " ++ m1 ++ ". ") ∧
    containsSub (dictMsgs (pre ++ (k1, c1) :: mid ++ (k2, c2) :: post))
      ("Поле " ++ k2 ++ " не было успешно валидировано: " ++ m2 ++ ". ") := by
  refine ⟨?_, ?_, ?_⟩
  · unfold cleanF cleanGlue
    rw [if_neg (by rw [hne]; exact Bool.false_ne_true)]
    simp only [coreF]
    rw [dictCleanProps_collect _ hno]
    dsimp only
    rw [if_neg (dictMsgs_ne_of_fail (pre ++ (k1, c1) :: mid) post k2 c2 m2 h2)]
    rw [show Field.fcOf (.dictF (pre ++ (k1, c1) :: mid ++ (k2, c2) :: post)
      pdef ia fc) = fc from rfl]
    rw [hlvl]
    rfl
  · refine ⟨dictMsgs pre, dictMsgs (mid ++ (k2, c2) :: post), ?_⟩
    rw [show pre ++ (k1, c1) :: mid ++ (k2, c2) :: post =
      pre ++ (k1, c1) :: (mid ++ (k2, c2) :: post) from by
        simp [List.append_assoc]]
    rw [dictMsgs_decompose pre (mid ++ (k2, c2) :: post) k1 c1]
    rw [show childMsg k1 c1 =
      "Поле " ++ k1 ++ " не было успешно валидировано: " ++ m1 ++ ". " from
      by simp [childMsg, h1]]
  · refine ⟨dictMsgs (pre ++ (k1, c1) :: mid), dictMsgs post, ?_⟩
    rw [dictMsgs_decompose (pre ++ (k1, c1) :: mid) post k2 c2]
    rw [show childMsg k2 c2 =
      "Поле " ++ k2 ++ " не было успешно валидировано: " ++ m2 ++ ". " from
      by simp [childMsg, h2]]


theorem C6_witness :
    (cleanGlue (.scalar ⟨.tInt, .vstr ("x"), freshFC true⟩)
      (coreF (.scalar ⟨.tInt, .vstr ("x"), freshFC true⟩))).2 =
      some (.validation (c3innerMsg "x")) ∧
    cleanF (.dictF ([] ++ ("a", Field.scalar ⟨.tInt, .vstr ("x"), freshFC true⟩) :: [] ++
        ("b", Field.scalar ⟨.tInt, .vstr ("y"), freshFC true⟩) :: []) true false (freshFC true)) =
      (.dictF (([] ++ ("a", Field.scalar ⟨.tInt, .vstr ("x"), freshFC true⟩) :: [] ++
          ("b", Field.scalar ⟨.tInt, .vstr ("y"), freshFC true⟩) :: []).map
          (fun p : String × Field => (p.1, (cleanGlue p.2 (coreF p.2)).1))) true false (freshFC true),
       some (.validation (dictMsgs ([] ++ ("a", Field.scalar ⟨.tInt, .vstr ("x"), freshFC true⟩) :: [] ++
          ("b", Field.scalar ⟨.tInt, .vstr ("y"), freshFC true⟩) :: [])))) :=
  ⟨rfl, (C6_composite_error_aggregation [] [] [] "a" "b"
      (.scalar ⟨.tInt, .vstr ("x"), freshFC true⟩)
      (.scalar ⟨.tInt, .vstr ("y"), freshFC true⟩)
      (c3innerMsg "x") (c3innerMsg "y") true false (freshFC true)
      rfl rfl rfl
      (by intro p hp e he
          simp at hp
          rcases hp with rfl | rfl
          · dsimp only at he
            rw [show (cleanGlue (Field.scalar ⟨.tInt, .vstr ("x"), freshFC true⟩)
              (coreF (Field.scalar ⟨.tInt, .vstr ("x"), freshFC true⟩))).2 =
              some (PyErr.validation (c3innerMsg "x")) from rfl] at he
            exact ⟨c3innerMsg "x", (Option.some.inj he).symm⟩
          · dsimp only at he
            rw [show (cleanGlue (Field.scalar ⟨.tInt, .vstr ("y"), freshFC true⟩)
              (coreF (Field.scalar ⟨.tInt, .vstr ("y"), freshFC true⟩))).2 =
              some (PyErr.validation (c3innerMsg "y")) from rfl] at he
            exact ⟨c3innerMsg "y", (Option.some.inj he).symm⟩)
      rfl).1⟩


/-- An attrs map that does not contain the key "value". -/
def fcOk (fc : FC) : Prop := containsK fc.attrs valueKey = false

mutual

/-- The C8 invariant: no attrs map anywhere in the field tree contains
the key "value". -/
def attrsOk : Field → Prop
  | .scalar s => containsK s.fc.attrs valueKey = false
  | .listF e _ fc =>
      containsK fc.attrs valueKey = false ∧
      containsK e.fc.attrs valueKey = false
  | .convDict _ _ fc => containsK fc.attrs valueKey = false
  | .dictF props _ _ fc =>
      containsK fc.attrs valueKey = false ∧ attrsOkProps props
termination_by structural f => f

/-- The C8 invariant over a property list. -/
def attrsOkProps : List (String × Field) → Prop
  | [] => True
  | (_, c) :: rest => attrsOk c ∧ attrsOkProps rest
termination_by structural props => props

end

theorem containsK_eraseKV_self {α : Type} (kvs : List (String × α))
    (k : String) : containsK (eraseKV kvs k) k = false := by
  simp only [containsK, eraseKV, List.any_eq_false, decide_eq_true_eq]
  intro p hp
  have := (List.mem_filter.mp hp).2
  simpa using this

theorem lookupKV_some_containsK {α : Type} (kvs : List (String × α))
    (k : String) (v : α) (h : lookupKV kvs k = some v) :
    containsK kvs k = true := by
  induction kvs with
  | nil => simp [lookupKV] at h
  | cons p rest ih =>
      obtain ⟨k1, v1⟩ := p
      by_cases h1 : k1 = k
      · simp [containsK, h1]
      · simp only [lookupKV, if_neg h1] at h
        exact Bool.or_eq_true_iff.mpr (Or.inr (ih h))

theorem containsK_insertKV_ne {α : Type} (kvs : List (String × α))
    (k1 k : String) (v : α) (h : k1 ≠ k) :
    containsK (insertKV kvs k1 v) k = containsK kvs k := by
  induction kvs with
  | nil => simp [insertKV, containsK, h]
  | cons p rest ih =>
      obtain ⟨k2, v2⟩ := p
      by_cases h2 : k2 = k1
      · subst h2
        simp [insertKV, containsK, h]
      · simp only [insertKV, if_neg h2, containsK, List.any_cons]
        exact congrArg (fun b => (decide (k2 = k) || b)) ih

theorem fieldSetRaw_fcOk (fc : FC) (v : Value) (h : fcOk fc) :
    fcOk (fieldSetRaw fc v).2 := by
  unfold fieldSetRaw
  by_cases ha : fc.attrsEnabled = true
  · rw [if_pos ha]
    cases v with
    | vdict kvs =>
        by_cases hc : containsK kvs valueKey = true
        · simp only [hc, if_pos]
          exact containsK_eraseKV_self kvs valueKey
        · simp only [hc]
          simpa using h
    | vnull => exact h
    | vint n => exact h
    | vstr s => exact h
    | vbool b => exact h
    | vlist xs => exact h
  · rw [if_neg ha]
    exact h

theorem restrictAttrs_aux (names : List String)
    (kvs acc : List (String × Value))
    (hkvs : containsK kvs valueKey = false)
    (hacc : containsK acc valueKey = false) :
    containsK (names.foldl
      (fun acc n =>
        match lookupKV kvs n with
        | some v => insertKV acc n v
        | none => acc) acc) valueKey = false := by
  induction names generalizing acc with
  | nil => exact hacc
  | cons n rest ih =>
      simp only [List.foldl_cons]
      cases hl : lookupKV kvs n with
      | none => exact ih acc hacc
      | some v =>
          apply ih
          have hne : n ≠ valueKey := by
            intro he
            subst he
            rw [lookupKV_some_containsK kvs valueKey v hl] at hkvs
            exact absurd hkvs (by simp)
          show containsK (insertKV acc n v) valueKey = false
          rw [containsK_insertKV_ne acc n valueKey v hne]
          exact hacc

theorem restrictAttrs_ok (names : List String) (kvs : List (String × Value))
    (hkvs : containsK kvs valueKey = false) :
    containsK (restrictAttrs names kvs) valueKey = false :=
  restrictAttrs_aux names kvs [] hkvs rfl

theorem attrsOk_withAttrs (f : Field) (a : List (String × Value))
    (h : attrsOk f) (ha : containsK a valueKey = false) :
    attrsOk (f.withAttrs a) := by
  cases f with
  | scalar s => exact ha
  | listF e v fc => exact ⟨ha, h.2⟩
  | convDict d v fc => exact ha
  | dictF props pdef ia fc => exact ⟨ha, h.2⟩

theorem setAttrsF_ok (f : Field) (attrs : List (String × Value))
    (incl : Bool) (h : attrsOk f) : attrsOk (setAttrsF f attrs incl) := by
  unfold setAttrsF
  have h2 : containsK (eraseKV attrs valueKey) valueKey = false :=
    containsK_eraseKV_self attrs valueKey
  by_cases hi : incl = true
  · rw [if_pos hi]
    exact attrsOk_withAttrs f _ h h2
  · rw [if_neg hi]
    exact attrsOk_withAttrs f _ h (restrictAttrs_ok _ _ h2)

theorem updateAttrsF_ok (f : Field) (attrs : List (String × Value))
    (incl : Bool) (h : attrsOk f) : attrsOk (updateAttrsF f attrs incl) :=
  setAttrsF_ok f _ incl h


theorem attrsOkProps_insertKV (props : List (String × Field)) (k : String)
    (c : Field) (hp : attrsOkProps props) (hc : attrsOk c) :
    attrsOkProps (insertKV props k c) := by
  induction props with
  | nil => exact ⟨hc, trivial⟩
  | cons p rest ih =>
      obtain ⟨k1, c1⟩ := p
      by_cases h1 : k1 = k
      · rw [show insertKV ((k1, c1) :: rest) k c = (k, c) :: rest from by
          simp [insertKV, h1]]
        exact ⟨hc, hp.2⟩
      · rw [show insertKV ((k1, c1) :: rest) k c = (k1, c1) :: insertKV rest k c from by
          simp [insertKV, h1]]
        exact ⟨hp.1, ih hp.2⟩


theorem setFam_attrs : ∀ (n m : Nat),
    (∀ (f : Field) (v : Value) (incl : Bool), sizeOf v ≤ n → sizeOf f ≤ m →
      attrsOk f → attrsOk (setF f v incl).1) ∧
    (∀ (props : List (String × Field)) (pdef ia : Bool) (fc : FC)
      (kvs : List (String × Value)) (incl : Bool), sizeOf kvs + 1 ≤ n →
      fcOk fc → attrsOkProps props →
      attrsOk (setDictKvs props pdef ia fc kvs incl).1) ∧
    (∀ (props : List (String × Field)) (ia : Bool)
      (kvs : List (String × Value)), sizeOf kvs ≤ n →
      sizeOf props + 2 ≤ m → attrsOkProps props →
      attrsOkProps (setEntries props ia kvs).1) ∧
    (∀ (props : List (String × Field)) (kvs : List (String × Value)),
      sizeOf kvs ≤ n → sizeOf props + 1 ≤ m → attrsOkProps props →
      attrsOkProps (setDeclared props kvs).1) ∧
    (∀ (props : List (String × Field)) (ia : Bool)
      (kvs : List (String × Value)), sizeOf kvs ≤ n → attrsOkProps props →
      attrsOkProps (setUndeclared props ia kvs).1) ∧
    (∀ (props : List (String × Field)) (ia : Bool) (k : String) (sv : Value),
      sizeOf sv + 1 ≤ n → attrsOkProps props →
      attrsOkProps (addUndef props ia k sv).1) := by
  intro n
  induction n using Nat.strong_induction_on with
  | _ n ihn =>
  intro m
  induction m using Nat.strong_induction_on with
  | _ m ihm =>
  refine ⟨?_, ?_, ?_, ?_, ?_, ?_⟩
  · -- setF
    intro f v incl hn hm hok
    cases f with
    | scalar s =>
        simp only [setF]
        exact fieldSetRaw_fcOk s.fc v hok
    | listF e v0 fc =>
        simp only [setF]
        exact ⟨fieldSetRaw_fcOk fc v hok.1, hok.2⟩
    | convDict d v0 fc =>
        simp only [setF]
        exact fieldSetRaw_fcOk fc v hok
    | dictF props pdef ia fc =>
        have hm1 : 1 ≤ m := le_trans (sizeOf_field_pos _) hm
        cases v with
        | vdict kvs =>
            simp only [setF]
            have hkn : sizeOf kvs + 1 ≤ n := by simp at hn; omega
            exact (ihm 0 (by omega)).2.1 props pdef ia fc kvs (incl || !pdef)
              hkn hok.1 hok.2
        | vnull =>
            simp only [setF]
            rw [if_neg (by decide)]
            dsimp only
            have hpm : sizeOf props + 2 ≤ m - 1 := by
              have := sizeOf_fc_pos fc
              simp at hm
              omega
            exact ⟨hok.1, (ihm (m - 1) (by omega)).2.2.1 props ia []
              (by simp at hn ⊢; omega) hpm hok.2⟩
        | vint i =>
            simp only [setF]
            by_cases hb : pyBool (.vint i) = true
            · rw [if_pos hb]
              exact hok
            · rw [if_neg hb]
              dsimp only
              have hpm : sizeOf props + 2 ≤ m - 1 := by
                have := sizeOf_fc_pos fc
                simp at hm
                omega
              exact ⟨hok.1, (ihm (m - 1) (by omega)).2.2.1 props ia []
                (by simp at hn ⊢; omega) hpm hok.2⟩
        | vstr s =>
            simp only [setF]
            by_cases hb : pyBool (.vstr s) = true
            · rw [if_pos hb]
              exact hok
            · rw [if_neg hb]
              dsimp only
              have hpm : sizeOf props + 2 ≤ m - 1 := by
                have := sizeOf_fc_pos fc
                simp at hm
                omega
              exact ⟨hok.1, (ihm (m - 1) (by omega)).2.2.1 props ia []
                (by have := sizeOf_value_pos (Value.vstr s); simp at hn ⊢; omega) hpm hok.2⟩
        | vbool b =>
            simp only [setF]
            by_cases hb : pyBool (.vbool b) = true
            · rw [if_pos hb]
              exact hok
            · rw [if_neg hb]
              dsimp only
              have hpm : sizeOf props + 2 ≤ m - 1 := by
                have := sizeOf_fc_pos fc
                simp at hm
                omega
              exact ⟨hok.1, (ihm (m - 1) (by omega)).2.2.1 props ia []
                (by simp at hn ⊢; omega) hpm hok.2⟩
        | vlist xs =>
            simp only [setF]
            by_cases hb : pyBool (.vlist xs) = true
            · rw [if_pos hb]
              exact hok
            · rw [if_neg hb]
              dsimp only
              have hpm : sizeOf props + 2 ≤ m - 1 := by
                have := sizeOf_fc_pos fc
                simp at hm
                omega
              exact ⟨hok.1, (ihm (m - 1) (by omega)).2.2.1 props ia []
                (by simp at hn ⊢; omega) hpm hok.2⟩
  · -- setDictKvs
    intro props pdef ia fc kvs incl hn hfc hprops
    have hn2 : 2 ≤ n := by
      have := sizeOf_list_pos kvs
      omega
    unfold setDictKvs
    split
    · exact ⟨hfc, hprops⟩
    next kvs2 hs =>
      dsimp only
      cases hv : (fieldSetRaw fc (Value.vdict kvs2)).1 with
      | vdict kvs3 =>
          dsimp only
          refine ⟨fieldSetRaw_fcOk fc _ hfc, ?_⟩
          have hb1 : sizeOf kvs3 ≤ n - 1 := by
            have hA := sizeOf_stripUndeclared hs
            have hB := sizeOf_fieldSetRaw_fst fc kvs2
            rw [hv] at hB
            simp at hB
            omega
          exact (ihn (n - 1) (by omega) (sizeOf props + 2)).2.2.1 props ia kvs3
            hb1 (le_refl _) hprops
      | vnull =>
          dsimp only
          rw [if_neg (by decide)]
          dsimp only
          refine ⟨fieldSetRaw_fcOk fc _ hfc, ?_⟩
          exact (ihn (n - 1) (by omega) (sizeOf props + 2)).2.2.1 props ia []
            (by simp; omega) (le_refl _) hprops
      | vint i =>
          dsimp only
          by_cases hb : pyBool (.vint i) = true
          · rw [if_pos hb]
            exact ⟨fieldSetRaw_fcOk fc _ hfc, hprops⟩
          · rw [if_neg hb]
            dsimp only
            refine ⟨fieldSetRaw_fcOk fc _ hfc, ?_⟩
            exact (ihn (n - 1) (by omega) (sizeOf props + 2)).2.2.1 props ia []
              (by simp; omega) (le_refl _) hprops
      | vstr s =>
          dsimp only
          by_cases hb : pyBool (.vstr s) = true
          · rw [if_pos hb]
            exact ⟨fieldSetRaw_fcOk fc _ hfc, hprops⟩
          · rw [if_neg hb]
            dsimp only
            refine ⟨fieldSetRaw_fcOk fc _ hfc, ?_⟩
            exact (ihn (n - 1) (by omega) (sizeOf props + 2)).2.2.1 props ia []
              (by simp; omega) (le_refl _) hprops
      | vbool b =>
          dsimp only
          by_cases hb : pyBool (.vbool b) = true
          · rw [if_pos hb]
            exact ⟨fieldSetRaw_fcOk fc _ hfc, hprops⟩
          · rw [if_neg hb]
            dsimp only
            refine ⟨fieldSetRaw_fcOk fc _ hfc, ?_⟩
            exact (ihn (n - 1) (by omega) (sizeOf props + 2)).2.2.1 props ia []
              (by simp; omega) (le_refl _) hprops
      | vlist xs =>
          dsimp only
          by_cases hb : pyBool (.vlist xs) = true
          · rw [if_pos hb]
            exact ⟨fieldSetRaw_fcOk fc _ hfc, hprops⟩
          · rw [if_neg hb]
            dsimp only
            refine ⟨fieldSetRaw_fcOk fc _ hfc, ?_⟩
            exact (ihn (n - 1) (by omega) (sizeOf props + 2)).2.2.1 props ia []
              (by simp; omega) (le_refl _) hprops
  · -- setEntries
    intro props ia kvs hn hm hprops
    have hm3 : 3 ≤ m := by
      have := sizeOf_list_pos props
      omega
    unfold setEntries
    cases hd : setDeclared props kvs with
    | mk props1 oe =>
        have hp1 : attrsOkProps props1 := by
          have := (ihm (m - 1) (by omega)).2.2.2.1 props kvs hn (by omega) hprops
          rw [hd] at this
          exact this
        cases oe with
        | some e => exact hp1
        | none =>
            show attrsOkProps (setUndeclared props1 ia kvs).1
            exact (ihm (m - 1) (by omega)).2.2.2.2.1 props1 ia kvs hn hp1
  · -- setDeclared
    intro props kvs hn hm hprops
    cases props with
    | nil =>
        unfold setDeclared
        trivial
    | cons p rest =>
        obtain ⟨k, c⟩ := p
        unfold setDeclared
        have hm2 : 2 ≤ m := by
          have := sizeOf_list_pos rest
          simp at hm
          omega
        have hcsz : sizeOf c + 1 ≤ m - 1 := by
          simp at hm
          omega
        have hrest : sizeOf rest + 1 ≤ m - 1 := by
          simp at hm
          omega
        have hset : attrsOk (setF c ((lookupKV kvs k).getD .vnull) false).1 := by
          cases hl : lookupKV kvs k with
          | some w =>
              have hw : sizeOf w ≤ n - 1 := by
                have := sizeOf_lookupKV kvs k w hl
                have := sizeOf_list_pos kvs
                omega
              exact (ihn (n - 1) (by
                  have := sizeOf_list_pos kvs
                  omega) (sizeOf c)).1 c w false hw (le_refl _) hprops.1
          | none =>
              exact (ihm (m - 1) (by omega)).1 c .vnull false
                (by have := sizeOf_list_pos kvs; simp; omega)
                (by omega) hprops.1
        cases hc : setF c ((lookupKV kvs k).getD .vnull) false with
        | mk c' oe =>
            rw [hc] at hset
            cases oe with
            | some e => exact ⟨hset, hprops.2⟩
            | none =>
                dsimp only
                refine ⟨hset, ?_⟩
                have := (ihm (m - 1) (by omega)).2.2.2.1 rest kvs hn hrest hprops.2
                exact this
  · -- setUndeclared
    intro props ia kvs hn hprops
    cases kvs with
    | nil =>
        unfold setUndeclared
        exact hprops
    | cons q rest =>
        obtain ⟨k, sv⟩ := q
        have hn1 : 2 ≤ n := by
          have := sizeOf_list_pos rest
          have := sizeOf_value_pos sv
          simp at hn
          omega
        have hrest : sizeOf rest ≤ n - 1 := by
          have := sizeOf_value_pos sv
          simp at hn
          omega
        unfold setUndeclared
        by_cases hk : containsK props k = true
        · rw [if_pos hk]
          exact (ihn (n - 1) (by omega) 0).2.2.2.2.1 props ia rest hrest hprops
        · rw [if_neg hk]
          have hsv : sizeOf sv + 1 ≤ n - 1 := by
            have := sizeOf_list_pos rest
            simp at hn
            omega
          have hadd : attrsOkProps (addUndef props ia k sv).1 :=
            (ihn (n - 1) (by omega) 0).2.2.2.2.2 props ia k sv hsv hprops
          cases ha : addUndef props ia k sv with
          | mk props' oe =>
              rw [ha] at hadd
              cases oe with
              | some e => exact hadd
              | none =>
                  dsimp only
                  exact (ihn (n - 1) (by omega) 0).2.2.2.2.1 props' ia rest
                    hrest hadd
  · -- addUndef
    intro props ia k sv hn hprops
    have hfresh : attrsOk (.scalar (scalarSet (freshText ia) sv)) :=
      fieldSetRaw_fcOk (freshFC ia) sv rfl
    cases sv with
    | vdict kvs2 =>
        unfold addUndef
        by_cases hc : containsK kvs2 valueKey = true
        · rw [if_pos hc]
          exact attrsOkProps_insertKV props k _ hprops hfresh
        · rw [if_neg hc]
          have hset : attrsOk (setF (.dictF [] false false (freshFC ia))
              (.vdict kvs2) true).1 := by
            refine (ihn (n - 1) (by
                have := sizeOf_list_pos kvs2
                simp at hn
                omega) (sizeOf (Field.dictF [] false false (freshFC ia)))).1
              _ _ true ?_ (le_refl _) ⟨rfl, trivial⟩
            simp at hn ⊢
            omega
          cases hsf : setF (.dictF [] false false (freshFC ia)) (.vdict kvs2) true with
          | mk p oe =>
              rw [hsf] at hset
              cases oe with
              | some e => exact hprops
              | none =>
                  dsimp only
                  exact attrsOkProps_insertKV props k p hprops hset
    | vnull =>
        unfold addUndef
        exact attrsOkProps_insertKV props k _ hprops hfresh
    | vint i =>
        unfold addUndef
        exact attrsOkProps_insertKV props k _ hprops hfresh
    | vstr s =>
        unfold addUndef
        exact attrsOkProps_insertKV props k _ hprops hfresh
    | vbool b =>
        unfold addUndef
        exact attrsOkProps_insertKV props k _ hprops hfresh
    | vlist xs =>
        unfold addUndef
        exact attrsOkProps_insertKV props k _ hprops hfresh


theorem setF_attrsOk (f : Field) (v : Value) (incl : Bool)
    (h : attrsOk f) : attrsOk (setF f v incl).1 :=
  (setFam_attrs (sizeOf v) (sizeOf f)).1 f v incl (le_refl _) (le_refl _) h

theorem addUndef_attrsOk (props : List (String × Field)) (ia : Bool)
    (k : String) (sv : Value) (h : attrsOkProps props) :
    attrsOkProps (addUndef props ia k sv).1 :=
  (setFam_attrs (sizeOf sv + 1) 0).2.2.2.2.2 props ia k sv (le_refl _) h

theorem setPropAt_attrsOk (props : List (String × Field)) (k : String)
    (sv : Value) (h : attrsOkProps props) :
    attrsOkProps (setPropAt props k sv).1 := by
  induction props with
  | nil => exact h
  | cons p rest ih =>
      obtain ⟨k1, c⟩ := p
      unfold setPropAt
      by_cases h1 : k1 = k
      · rw [if_pos h1]
        exact ⟨setF_attrsOk c sv false h.1, h.2⟩
      · rw [if_neg h1]
        exact ⟨h.1, ih h.2⟩

theorem dictUpdateEntries_attrsOk (props : List (String × Field)) (ia : Bool)
    (kvs : List (String × Value)) (incl : Bool) (h : attrsOkProps props) :
    attrsOkProps (dictUpdateEntries props ia kvs incl).1 := by
  induction kvs generalizing props with
  | nil => exact h
  | cons q rest ih =>
      obtain ⟨k, sv⟩ := q
      unfold dictUpdateEntries
      by_cases hk : containsK props k = true
      · rw [if_pos hk]
        have hsp := setPropAt_attrsOk props k sv h
        cases hs : setPropAt props k sv with
        | mk props' oe =>
            rw [hs] at hsp
            cases oe with
            | some e => exact hsp
            | none => exact ih props' hsp
      · rw [if_neg hk]
        by_cases hi : incl = true
        · rw [if_pos hi]
          have hau := addUndef_attrsOk props ia k sv h
          cases ha : addUndef props ia k sv with
          | mk props' oe =>
              rw [ha] at hau
              cases oe with
              | some e => exact hau
              | none => exact ih props' hau
        · rw [if_neg hi]
          exact ih props h

theorem updateF_attrsOk (f : Field) (v : Value) (incl : Bool)
    (h : attrsOk f) : attrsOk (updateF f v incl).1 := by
  cases f with
  | dictF props pdef ia fc =>
      cases v with
      | vdict kvs =>
          have hred : updateF (Field.dictF props pdef ia fc) (Value.vdict kvs) incl =
              if kvs.isEmpty = true then (Field.dictF props pdef ia fc, none)
              else (Field.dictF (dictUpdateEntries props ia kvs (incl || !pdef)).1 pdef ia fc,
                (dictUpdateEntries props ia kvs (incl || !pdef)).2) := rfl
          rw [hred]
          by_cases he : kvs.isEmpty = true
          · rw [if_pos he]
            exact h
          · rw [if_neg he]
            exact ⟨h.1, dictUpdateEntries_attrsOk props ia kvs _ h.2⟩
      | vnull => exact h
      | vint i =>
          have hred : updateF (Field.dictF props pdef ia fc) (Value.vint i) incl =
              if pyBool (Value.vint i) = true then (Field.dictF props pdef ia fc,
                some (.typeError ("Update method can only work with dictionaries, but got "
                  ++ pyTypeName (Value.vint i) ++ " instead.")))
              else (Field.dictF props pdef ia fc, none) := rfl
          rw [hred]
          by_cases hb : pyBool (Value.vint i) = true
          · rw [if_pos hb]
            exact h
          · rw [if_neg hb]
            exact h
      | vstr s =>
          have hred : updateF (Field.dictF props pdef ia fc) (Value.vstr s) incl =
              if pyBool (Value.vstr s) = true then (Field.dictF props pdef ia fc,
                some (.typeError ("Update method can only work with dictionaries, but got "
                  ++ pyTypeName (Value.vstr s) ++ " instead.")))
              else (Field.dictF props pdef ia fc, none) := rfl
          rw [hred]
          by_cases hb : pyBool (Value.vstr s) = true
          · rw [if_pos hb]
            exact h
          · rw [if_neg hb]
            exact h
      | vbool b =>
          have hred : updateF (Field.dictF props pdef ia fc) (Value.vbool b) incl =
              if pyBool (Value.vbool b) = true then (Field.dictF props pdef ia fc,
                some (.typeError ("Update method can only work with dictionaries, but got "
                  ++ pyTypeName (Value.vbool b) ++ " instead.")))
              else (Field.dictF props pdef ia fc, none) := rfl
          rw [hred]
          by_cases hb : pyBool (Value.vbool b) = true
          · rw [if_pos hb]
            exact h
          · rw [if_neg hb]
            exact h
      | vlist xs =>
          have hred : updateF (Field.dictF props pdef ia fc) (Value.vlist xs) incl =
              if pyBool (Value.vlist xs) = true then (Field.dictF props pdef ia fc,
                some (.typeError ("Update method can only work with dictionaries, but got "
                  ++ pyTypeName (Value.vlist xs) ++ " instead.")))
              else (Field.dictF props pdef ia fc, none) := rfl
          rw [hred]
          by_cases hb : pyBool (Value.vlist xs) = true
          · rw [if_pos hb]
            exact h
          · rw [if_neg hb]
            exact h
  | scalar s =>
      cases v with
      | vdict kvs =>
          have hred : updateF (Field.scalar s) (Value.vdict kvs) incl =
              if ((Field.scalar s).fcOf.attrsEnabled && containsK kvs valueKey) = true then
                setF (Field.scalar s) (Value.vdict (mergeKV (Field.scalar s).fcOf.attrs kvs)) incl
              else setF (Field.scalar s) (Value.vdict kvs) incl := rfl
          rw [hred]
          by_cases hc : ((Field.scalar s).fcOf.attrsEnabled && containsK kvs valueKey) = true
          · rw [if_pos hc]
            exact setF_attrsOk _ _ incl h
          · rw [if_neg hc]
            exact setF_attrsOk _ _ incl h
      | vnull => exact setF_attrsOk _ _ incl h
      | vint i => exact setF_attrsOk _ _ incl h
      | vstr s2 => exact setF_attrsOk _ _ incl h
      | vbool b => exact setF_attrsOk _ _ incl h
      | vlist xs => exact setF_attrsOk _ _ incl h
  | listF e v0 fc =>
      cases v with
      | vdict kvs =>
          have hred : updateF (Field.listF e v0 fc) (Value.vdict kvs) incl =
              if ((Field.listF e v0 fc).fcOf.attrsEnabled && containsK kvs valueKey) = true then
                setF (Field.listF e v0 fc) (Value.vdict (mergeKV (Field.listF e v0 fc).fcOf.attrs kvs)) incl
              else setF (Field.listF e v0 fc) (Value.vdict kvs) incl := rfl
          rw [hred]
          by_cases hc : ((Field.listF e v0 fc).fcOf.attrsEnabled && containsK kvs valueKey) = true
          · rw [if_pos hc]
            exact setF_attrsOk _ _ incl h
          · rw [if_neg hc]
            exact setF_attrsOk _ _ incl h
      | vnull => exact setF_attrsOk _ _ incl h
      | vint i => exact setF_attrsOk _ _ incl h
      | vstr s2 => exact setF_attrsOk _ _ incl h
      | vbool b => exact setF_attrsOk _ _ incl h
      | vlist xs => exact setF_attrsOk _ _ incl h
  | convDict d v0 fc =>
      cases v with
      | vdict kvs =>
          have hred : updateF (Field.convDict d v0 fc) (Value.vdict kvs) incl =
              if ((Field.convDict d v0 fc).fcOf.attrsEnabled && containsK kvs valueKey) = true then
                setF (Field.convDict d v0 fc) (Value.vdict (mergeKV (Field.convDict d v0 fc).fcOf.attrs kvs)) incl
              else setF (Field.convDict d v0 fc) (Value.vdict kvs) incl := rfl
          rw [hred]
          by_cases hc : ((Field.convDict d v0 fc).fcOf.attrsEnabled && containsK kvs valueKey) = true
          · rw [if_pos hc]
            exact setF_attrsOk _ _ incl h
          · rw [if_neg hc]
            exact setF_attrsOk _ _ incl h
      | vnull => exact setF_attrsOk _ _ incl h
      | vint i => exact setF_attrsOk _ _ incl h
      | vstr s2 => exact setF_attrsOk _ _ incl h
      | vbool b => exact setF_attrsOk _ _ incl h
      | vlist xs => exact setF_attrsOk _ _ incl h


theorem deserializeOp_attrsOk (f : Field) (data : Value) (h : attrsOk f) :
    attrsOk (deserializeOp f data).1 := by
  unfold deserializeOp
  cases hd : deserializeVal f data with
  | error e => exact h
  | ok r =>
      dsimp only
      have hs := setF_attrsOk f r false h
      cases hsf : setF f r false with
      | mk f1 oe =>
          rw [hsf] at hs
          cases oe with
          | some e => exact hs
          | none =>
              dsimp only
              cases f1 with
              | convDict d v fc => exact hs
              | scalar s => exact hs
              | listF e v fc => exact hs
              | dictF props pdef ia fc => exact hs

theorem applyOp_attrsOk (f : Field) (op : FOp) (h : attrsOk f) :
    attrsOk (applyOp f op) := by
  cases op with
  | oSet v incl => exact setF_attrsOk f v incl h
  | oUpdate v incl => exact updateF_attrsOk f v incl h
  | oSetAttrs kvs incl => exact setAttrsF_ok f kvs incl h
  | oUpdateAttrs kvs incl => exact updateAttrsF_ok f kvs incl h
  | oDeserialize v => exact deserializeOp_attrsOk f v h

theorem attrsOk_top (f : Field) (h : attrsOk f) :
    containsK ((f.fcOf).attrs) valueKey = false := by
  cases f with
  | scalar s => exact h
  | listF e v fc => exact h.1
  | convDict d v fc => exact h
  | dictF props pdef ia fc => exact h.1


/-- C8: for every field satisfying the attrs invariant (no attrs map in
its tree contains the key "value" — true of every freshly constructed
field, whose attrs start empty) and every sequence of the public
operations set, update, set_attrs, update_attrs and deserialize with
auto-set, the invariant is preserved: in particular the field\x27s own
instance attribute map never contains the key "value". -/
theorem C8_attrs_never_value (f : Field) (ops : List FOp) (h : attrsOk f) :
    attrsOk (ops.foldl applyOp f) ∧
    containsK (((ops.foldl applyOp f).fcOf).attrs) valueKey = false := by
  suffices hall : attrsOk (ops.foldl applyOp f) from
    ⟨hall, attrsOk_top _ hall⟩
  induction ops generalizing f with
  | nil => exact h
  | cons op rest ih =>
      exact ih (applyOp f op) (applyOp_attrsOk f op h)

theorem C8_witness :
    attrsOk (.scalar (freshText true)) ∧
    (attrsOk ([FOp.oSet (.vdict [("value", .vint 1), ("x", .vint 2)]) false,
        FOp.oUpdateAttrs [("value", .vint 3), ("pretty_name", .vstr ("n"))] true,
        FOp.oDeserialize (.vdict [("value", .vstr ("abc"))])].foldl applyOp
        (.scalar (freshText true))) ∧
     containsK ((([FOp.oSet (.vdict [("value", .vint 1), ("x", .vint 2)]) false,
        FOp.oUpdateAttrs [("value", .vint 3), ("pretty_name", .vstr ("n"))] true,
        FOp.oDeserialize (.vdict [("value", .vstr ("abc"))])].foldl applyOp
        (.scalar (freshText true))).fcOf).attrs) valueKey = false) :=
  ⟨rfl, C8_attrs_never_value (.scalar (freshText true))
    [FOp.oSet (.vdict [("value", .vint 1), ("x", .vint 2)]) false,
     FOp.oUpdateAttrs [("value", .vint 3), ("pretty_name", .vstr ("n"))] true,
     FOp.oDeserialize (.vdict [("value", .vstr ("abc"))])] rfl⟩

end EsOrm
